import Mathlib

/-!
# Verification of the asterisk_queue call-distribution core

Shallow embedding of the repository's source files:

* `src/lib/timeUtils.js` (shipped as `src/unnamed/part_000`): the timing
  evaluator `parseTimings`;
* `src/src/services/queueService.js`: the queue/agent repository over the
  Redis store (`addAgent`, `getAgentDetails`, `agentLogin`, `agentLogout`,
  `findAgentForCall_RoundRobin`);
* `src/src/services/ariService.js`: the call-router fragments of
  `registerEventHandlers` relevant to agent selection, origination and
  re-enqueue.

JavaScript string primitives (`split` with a one-character separator,
`trim`, `toUpperCase`, `Number` on the strings that appear in timing rules)
are embedded as structural recursions over `String.data` so that every
definition evaluates inside the kernel.  The Redis key space of one call
center is modelled as association lists keyed by the id part of each key;
Redis sets are lists without duplicate insertion (`SADD` semantics) and the
per-queue waiting-call lists are FIFO Lean lists.
-/

namespace AstQueue

/-! ## JavaScript string primitives -/

/-- JS `String.prototype.split(sep)` for a one-character separator, on the
underlying character list.  `''.split(c)` is `['']`, adjacent separators
yield empty fields, exactly as in JavaScript. -/
def splitCharList (sep : Char) : List Char → List String
  | [] => [""]
  | c :: rest =>
    let r := splitCharList sep rest
    if c == sep then "" :: r
    else
      match r with
      | [] => [String.mk [c]]
      | s :: tail => String.mk (c :: s.data) :: tail

/-- JS `s.split(sep)` (single-character separator). -/
def jsSplit (s : String) (sep : Char) : List String :=
  splitCharList sep s.data

/-- JS `String.prototype.trim()` (whitespace at both ends). -/
def jsTrim (s : String) : String :=
  String.mk (((s.data.dropWhile Char.isWhitespace).reverse.dropWhile Char.isWhitespace).reverse)

/-- JS `String.prototype.toUpperCase()` (ASCII is all the source needs). -/
def jsToUpper (s : String) : String :=
  String.mk (s.data.map Char.toUpper)

/-- Decimal digit accumulator for `jsNumber`. -/
def digitsVal : List Char → Nat → Option Nat
  | [], acc => some acc
  | c :: rest, acc =>
    if c.isDigit then digitsVal rest (acc * 10 + (c.toNat - 48)) else none

/-- JS `Number(s)` restricted to the shapes the timing parser feeds it:
the empty string converts to `0`, a (trimmed) string of decimal digits to
its value, and anything else to `NaN`, modelled as `none`.  (JS `Number`
also accepts signs, fractions and exponents; no `HH`/`MM` field of a
timing rule uses those.) -/
def jsNumber (s : String) : Option Nat :=
  let t := (jsTrim s).data
  if t.isEmpty then some 0 else digitsVal t 0

/-! ## Timing evaluator — src/lib/timeUtils.js -/

/-- `daysOfWeek` from timeUtils.js. -/
def daysOfWeek : List String := ["Sun", "Mon", "Tue", "Wed", "Thu", "Fri", "Sat"]

/-- The three components of a JS `Date` that `parseTimings` reads:
`getDay()` (0 = Sunday), `getHours()`, `getMinutes()`. -/
structure JsDate where
  getDay : Fin 7
  getHours : Nat
  getMinutes : Nat
deriving DecidableEq, Repr

/-- `currentDay` of timeUtils.js: `daysOfWeek[currentTime.getDay()]`. -/
def dayName (d : Fin 7) : String := daysOfWeek.getD d.val ""

/-- `currentTimeInMinutes` of timeUtils.js. -/
def currentTimeInMinutes (t : JsDate) : Nat := t.getHours * 60 + t.getMinutes

/-- `daysOfWeek.indexOf(str)`; `none` models JS `-1`. -/
def dayIndex (s : String) : Option Nat :=
  daysOfWeek.findIdx? (fun d => d == s)

/-- One day segment of a day-spec (timeUtils.js lines 43–70).  A segment
containing `-` is an inclusive day range that wraps across the week
boundary when its start index exceeds its end index; otherwise the segment
must equal the current day name exactly.  `daysOfWeek.indexOf(currentDay)`
is `d.val` because the seven day names are distinct. -/
def daySegmentMatches (segment : String) (d : Fin 7) : Bool :=
  if segment.data.contains '-' then
    match jsSplit segment '-' with
    | startDayStr :: endDayStr :: _ =>
      match dayIndex startDayStr, dayIndex endDayStr with
      | some startIndex, some endIndex =>
        if startIndex ≤ endIndex then
          decide (startIndex ≤ d.val) && decide (d.val ≤ endIndex)
        else
          decide (startIndex ≤ d.val) || decide (d.val ≤ endIndex)
      | _, _ => false
    | _ => false
  else segment == dayName d

/-- `timeRangeStr.split(':').map(Number)` destructured into hour and
minute; any missing (`undefined`) or non-numeric component is `NaN`,
modelled as `none` (timeUtils.js lines 86–92). -/
def parseTimePair (s : String) : Option (Nat × Nat) :=
  match (jsSplit s ':').map jsNumber with
  | some h :: some m :: _ => some (h, m)
  | _ => none

/-- The numeric admission test of one time range (timeUtils.js lines
94–137).  An end of `00:00` with a nonzero start means minute 1440; the
start is inclusive and the end exclusive; an inverted range (start after
the adjusted end) only logs warnings and admits nothing. -/
def timeRangeAdmits (startHour startMinute endHour endMinute curMinutes : Nat) : Bool :=
  let startTimeInMinutes := startHour * 60 + startMinute
  let endTimeInMinutes :=
    if endHour == 0 && endMinute == 0 && decide (0 < startTimeInMinutes) then 1440
    else endHour * 60 + endMinute
  if startTimeInMinutes ≤ endTimeInMinutes then
    decide (startTimeInMinutes ≤ curMinutes) && decide (curMinutes < endTimeInMinutes)
  else false

/-- The validation steps applied to one `timeRangeStr` before the numeric
test (timeUtils.js lines 80–92): split on `-`, skip when either side is
falsy (absent or empty), skip on any `NaN` component; otherwise the four
parsed numbers. -/
def parseRange (timeRangeStr : String) : Option (Nat × Nat × Nat × Nat) :=
  match jsSplit timeRangeStr '-' with
  | startTimeStr :: endTimeStr :: _ =>
    if startTimeStr.data.isEmpty || endTimeStr.data.isEmpty then none
    else
      match parseTimePair startTimeStr, parseTimePair endTimeStr with
      | some (startHour, startMinute), some (endHour, endMinute) =>
        some (startHour, startMinute, endHour, endMinute)
      | _, _ => none
  | _ => none

/-- One `timeRangeStr` of a rule (timeUtils.js lines 79–137): validate,
then run the numeric admission test. -/
def checkTimeRange (timeRangeStr : String) (curMinutes : Nat) : Bool :=
  match parseRange timeRangeStr with
  | some (startHour, startMinute, endHour, endMinute) =>
    timeRangeAdmits startHour startMinute endHour endMinute curMinutes
  | none => false

/-- Whether a range string parses to an inverted range: the start minute
strictly exceeds the adjusted end minute (the `00:00`-end special case
applied first). -/
def rangeIsInverted (timeRangeStr : String) : Bool :=
  match parseRange timeRangeStr with
  | some (startHour, startMinute, endHour, endMinute) =>
    decide ((if endHour == 0 && endMinute == 0 &&
          decide (0 < startHour * 60 + startMinute) then 1440
        else endHour * 60 + endMinute) < startHour * 60 + startMinute)
  | none => false

/-- One pipe-separated rule (timeUtils.js lines 30–138): split on `;`
after trimming; exactly two parts are required; the day-spec must match
and then some time range must admit the instant. -/
def ruleAdmits (rule : String) (d : Fin 7) (curMinutes : Nat) : Bool :=
  match jsSplit (jsTrim rule) ';' with
  | [timeRangesStr, daysStr] =>
    if (jsSplit daysStr ',').any (fun seg => daySegmentMatches seg d) then
      (jsSplit timeRangesStr ',').any (fun r => checkTimeRange r curMinutes)
    else false
  | _ => false

/-- The comma-separated time-range strings of a rule (empty when the rule
is malformed). -/
def ruleTimeRanges (rule : String) : List String :=
  match jsSplit (jsTrim rule) ';' with
  | [timeRangesStr, _] => jsSplit timeRangesStr ','
  | _ => []

/-- `parseTimings` of timeUtils.js: empty input is inactive, `24/7`
(case-insensitive, trimmed) is always active, otherwise some rule must
admit the instant. -/
def parseTimings (timingsString : String) (currentTime : JsDate) : Bool :=
  if timingsString.data.isEmpty then false
  else if jsToUpper (jsTrim timingsString) == "24/7" then true
  else
    (jsSplit timingsString '|').any
      (fun rule => ruleAdmits rule currentTime.getDay (currentTimeInMinutes currentTime))

/-! ## The shared store — one call center's Redis key space

`callcenter:{cc}:agent:{a}` hashes, `callcenter:{cc}:queue:{q}:agents_loggedIn`
sets, `callcenter:{cc}:queue:{q}:calls` lists and
`callcenter:{cc}:queue:{q}:lastAgentRR` strings are modelled as association
lists keyed by the id part of the key.  Hash fields that queueService.js
stores as JSON text (`shiftTimings`, `loggedInQueues`) are kept decoded,
since the repository is their sole encoder and decoder. -/

/-- The agent hash: `name, endpoint, shiftTimings, status, loggedInQueues`.
`status` is the literal status string the code reads and writes. -/
structure AgentRecord where
  name : String
  endpoint : String
  shiftTimings : String
  status : String
  loggedInQueues : List String
deriving DecidableEq, Repr

/-- The queue hash: `name, strategy, timings, status`. -/
structure QueueRecord where
  name : String
  strategy : String
  timings : String
  status : String
deriving DecidableEq, Repr

/-- One waiting-call record of a `queue:{q}:calls` list, as built by
ariService.js: `ariChannelId`, `callerNumber`, `enqueueTime` (epoch ms). -/
structure WaitingRecord where
  ariChannelId : String
  callerNumber : String
  enqueueTime : Nat
deriving DecidableEq, Repr

/-- One call center's slice of the Redis key space. -/
structure Store where
  agents : List (String × AgentRecord)
  agentsMaster : List String
  queues : List (String × QueueRecord)
  queuesMaster : List String
  loggedIn : List (String × List String)
  calls : List (String × List WaitingRecord)
  lastAgentRR : List (String × String)
deriving DecidableEq, Repr

/-- The store with no keys. -/
def emptyStore : Store := ⟨[], [], [], [], [], [], []⟩

/-- Association-list read (a missing key is an empty Redis key). -/
def alGet {β : Type} (k : String) : List (String × β) → Option β
  | [] => none
  | (k2, v) :: rest => if k2 == k then some v else alGet k rest

/-- Association-list write: overwrite the key's value, or append a fresh
binding. -/
def alSet {β : Type} (k : String) (v : β) : List (String × β) → List (String × β)
  | [] => [(k, v)]
  | (k2, v2) :: rest => if k2 == k then (k, v) :: rest else (k2, v2) :: alSet k v rest

/-- Redis `SADD` on a set modelled as a duplicate-free list. -/
def saddElem (l : List String) (x : String) : List String :=
  if l.contains x then l else l ++ [x]

/-- Redis `SREM`. -/
def sremElem (l : List String) (x : String) : List String :=
  l.filter (fun y => y != x)

/-! ## Queue/agent repository — src/src/services/queueService.js -/

/-- `addAgent` (queueService.js lines 85–109): requires the four string
arguments to be truthy, then overwrites the agent hash with
`status = LOGGED_OUT`, `loggedInQueues = []` and adds the id to the agent
master set.  There is no check that the agent does not already exist. -/
def addAgent (callCenterId agentId name endpoint shiftTimings : String) (st : Store) :
    Except String Unit × Store :=
  if callCenterId.data.isEmpty || agentId.data.isEmpty || name.data.isEmpty ||
      endpoint.data.isEmpty then
    (.error "callCenterId, agentId, name, and endpoint are required.", st)
  else
    let agentData : AgentRecord :=
      { name := name, endpoint := endpoint, shiftTimings := shiftTimings,
        status := "LOGGED_OUT", loggedInQueues := [] }
    (.ok (), { st with agents := alSet agentId agentData st.agents,
                       agentsMaster := saddElem st.agentsMaster agentId })

/-- `getAgentDetails` (queueService.js lines 117–139): argument check,
then `HGETALL`; an empty hash is `Agent not found`. -/
def getAgentDetails (callCenterId agentId : String) (st : Store) :
    Except String AgentRecord :=
  if callCenterId.data.isEmpty || agentId.data.isEmpty then
    .error "callCenterId and agentId are required."
  else
    match alGet agentId st.agents with
    | none => .error "Agent not found."
    | some a => .ok a

/-- Modelled from the spec: `isAgentOnShift(agentId, now)` — load the
agent and evaluate its `shiftTimings` with the timing evaluator.  The
function is called by `agentLogin` and `findAgentForCall_RoundRobin` in
src/src/services/queueService.js but its definition is not among the
source files (the file ends with a comment that the timing and shift
functions are assumed present). -/
def isAgentOnShift (callCenterId agentId : String) (now : JsDate) (st : Store) :
    Except String Bool :=
  match getAgentDetails callCenterId agentId st with
  | .error e => .error e
  | .ok a => .ok (parseTimings a.shiftTimings now)

/-- The shift gate of `agentLogin` (queueService.js lines 168–177): the
login may proceed when it is forced, or when `isAgentOnShift` succeeded
and reported the agent on shift. -/
def shiftCheckPasses (callCenterId agentId : String) (forceLogin : Bool) (now : JsDate)
    (st : Store) : Bool :=
  forceLogin ||
    (match isAgentOnShift callCenterId agentId now st with
     | .ok b => b
     | .error _ => false)

/-- `agentLogin` (queueService.js lines 152–196): argument check; the
agent must exist and be `LOGGED_OUT`; unless forced, the shift check must
pass.  Then `HMSET status AVAILABLE, loggedInQueues queueIds` and `SADD`
of the agent into each listed queue's logged-in set. -/
def agentLogin (callCenterId agentId : String) (queueIds : List String)
    (forceLogin : Bool) (now : JsDate) (st : Store) : Except String Unit × Store :=
  if callCenterId.data.isEmpty || agentId.data.isEmpty then
    (.error "callCenterId, agentId, and a valid queueIds array are required.", st)
  else
    match getAgentDetails callCenterId agentId st with
    | .error _ => (.error "Agent not found.", st)
    | .ok a =>
      if a.status != "LOGGED_OUT" then
        (.error "Agent is already logged in or in another status.", st)
      else if !shiftCheckPasses callCenterId agentId forceLogin now st then
        (.error "Agent is not on shift.", st)
      else
        (.ok (), { st with
          agents := alSet agentId
            { a with status := "AVAILABLE", loggedInQueues := queueIds } st.agents,
          loggedIn := queueIds.foldl
            (fun acc q => alSet q (saddElem ((alGet q acc).getD []) agentId) acc)
            st.loggedIn })

/-- `agentLogout` (queueService.js lines 204–238): argument check; the
agent must exist and not be `LOGGED_OUT`; then `SREM` from each queue of
its `loggedInQueues` and `HMSET status LOGGED_OUT, loggedInQueues []`. -/
def agentLogout (callCenterId agentId : String) (st : Store) :
    Except String Unit × Store :=
  if callCenterId.data.isEmpty || agentId.data.isEmpty then
    (.error "callCenterId and agentId are required.", st)
  else
    match alGet agentId st.agents with
    | none => (.error "Agent not found.", st)
    | some a =>
      if a.status == "LOGGED_OUT" then (.error "Agent is already logged out.", st)
      else
        (.ok (), { st with
          agents := alSet agentId
            { a with status := "LOGGED_OUT", loggedInQueues := [] } st.agents,
          loggedIn := a.loggedInQueues.foldl
            (fun acc q => alSet q (sremElem ((alGet q acc).getD []) agentId) acc)
            st.loggedIn })

/-- Modelled from the spec: `addCallToQueue(queueId, record)` — append the
waiting record to the tail of the queue's waiting sequence.  The function
is called throughout ariService.js but its definition is not among the
source files. -/
def addCallToQueue (callCenterId queueId : String) (r : WaitingRecord) (st : Store) :
    Store :=
  { st with calls := alSet queueId (((alGet queueId st.calls).getD []) ++ [r]) st.calls }

/-! ## Round-robin agent selection — queueService.js lines 276–338 -/

/-- JS-string comparison (`<=` on code units) on the characters. -/
def charListLe : List Char → List Char → Bool
  | [], _ => true
  | _ :: _, [] => false
  | a :: as, b :: bs =>
    if a.toNat < b.toNat then true
    else if b.toNat < a.toNat then false
    else charListLe as bs

/-- JS-string comparison used by `Array.prototype.sort()`'s default
comparator on an array of id strings. -/
def strLe (a b : String) : Bool := charListLe a.data b.data

/-- Insert into a sorted list (the sort key is `strLe`). -/
def insertSorted (a : String) : List String → List String
  | [] => [a]
  | b :: rest => if strLe a b then a :: b :: rest else b :: insertSorted a rest

/-- `trulyAvailableAgents.sort()` of queueService.js line 313:
lexicographic sort of the id strings.  On duplicate-free input every
correct sort agrees, so insertion sort embeds the JS engine's sort. -/
def sortStrings : List String → List String
  | [] => []
  | a :: rest => insertSorted a (sortStrings rest)

/-- The filter loop of `findAgentForCall_RoundRobin` (queueService.js
lines 292–306): keep the logged-in agents whose details load, whose
status is `AVAILABLE` and whose shift check succeeds and holds. -/
def eligibleAgents (callCenterId : String) (loggedInAgents : List String) (now : JsDate)
    (st : Store) : List String :=
  loggedInAgents.filter (fun agentId =>
    match getAgentDetails callCenterId agentId st with
    | .ok a =>
      a.status == "AVAILABLE" &&
        (match isAgentOnShift callCenterId agentId now st with
         | .ok b => b
         | .error _ => false)
    | .error _ => false)

/-- The pointer logic of queueService.js lines 315–323: when the stored
pointer is truthy and names a member of the sorted eligible list, take
the element one past it (wrapping); otherwise take the first element. -/
def rrSelect (sorted : List String) (pointer : Option String) : String :=
  match pointer with
  | some lastAgentId =>
    if !lastAgentId.data.isEmpty && sorted.contains lastAgentId then
      sorted.getD ((sorted.indexOf lastAgentId + 1) % sorted.length) ""
    else sorted.getD 0 ""
  | none => sorted.getD 0 ""

/-- `findAgentForCall_RoundRobin` (queueService.js lines 276–338).
Returns `ok none` when no agent is selectable, otherwise rotates past the
stored pointer inside the sorted eligible list, writes the selection back
to `lastAgentRR` and returns it.  The `if (selectedAgentId)` truthiness
test of line 325 is the emptiness test on the selected string. -/
def findAgentForCall_RoundRobin (callCenterId queueId : String) (now : JsDate)
    (st : Store) : Except String (Option String) × Store :=
  if callCenterId.data.isEmpty || queueId.data.isEmpty then
    (.error "callCenterId and queueId are required.", st)
  else if ((alGet queueId st.loggedIn).getD []).isEmpty then (.ok none, st)
  else if (eligibleAgents callCenterId ((alGet queueId st.loggedIn).getD []) now
      st).isEmpty then
    (.ok none, st)
  else if (rrSelect
      (sortStrings (eligibleAgents callCenterId ((alGet queueId st.loggedIn).getD [])
        now st))
      (alGet queueId st.lastAgentRR)).data.isEmpty then
    (.ok none, st)
  else
    (.ok (some (rrSelect
       (sortStrings (eligibleAgents callCenterId ((alGet queueId st.loggedIn).getD [])
         now st))
       (alGet queueId st.lastAgentRR))),
     { st with lastAgentRR :=
        (alSet queueId
          (rrSelect
            (sortStrings (eligibleAgents callCenterId
              ((alGet queueId st.loggedIn).getD []) now st))
            (alGet queueId st.lastAgentRR))
          st.lastAgentRR) })

/-- The index inside the sorted eligible list that the next selection
will take, as the claims describe it: one past the pointer when the
pointer names a member of the list, else the first element. -/
def nextRRIndex (sorted : List String) (pointer : Option String) : Nat :=
  match pointer with
  | some lastAgentId =>
    if !lastAgentId.data.isEmpty && sorted.contains lastAgentId then
      (sorted.indexOf lastAgentId + 1) % sorted.length
    else 0
  | none => 0

/-- `n` back-to-back invocations of the selector, the store threaded
through; the sequence stops early if an invocation fails to select. -/
def iterateRR (callCenterId queueId : String) (now : JsDate) :
    Nat → Store → List String
  | 0, _ => []
  | Nat.succ n, st =>
    match findAgentForCall_RoundRobin callCenterId queueId now st with
    | (.ok (some a), st2) => a :: iterateRR callCenterId queueId now n st2
    | _ => []

/-! ## Admin-operation sequences (for the membership invariant) -/

/-- One administrative operation on the agent tables. -/
inductive AdminOp where
  | add (agentId name endpoint shiftTimings : String)
  | login (agentId : String) (queueIds : List String) (forceLogin : Bool) (now : JsDate)
  | logout (agentId : String)
deriving Repr

/-- Dispatch one admin operation. -/
def applyAdminOp (callCenterId : String) (op : AdminOp) (st : Store) :
    Except String Unit × Store :=
  match op with
  | .add agentId name endpoint shiftTimings =>
    addAgent callCenterId agentId name endpoint shiftTimings st
  | .login agentId queueIds forceLogin now =>
    agentLogin callCenterId agentId queueIds forceLogin now st
  | .logout agentId => agentLogout callCenterId agentId st

/-- Run a sequence of admin operations; `none` as soon as the store
reports an error. -/
def runAdminOps (callCenterId : String) : List AdminOp → Store → Option Store
  | [], st => some st
  | op :: ops, st =>
    match applyAdminOp callCenterId op st with
    | (.ok _, st2) => runAdminOps callCenterId ops st2
    | (.error _, _) => none

/-- Whether the operation satisfies the freshness side condition of the
amended claim C3: an `addAgent` only on an agent id with no record. -/
def freshFor (op : AdminOp) (st : Store) : Bool :=
  match op with
  | .add agentId _ _ _ => (alGet agentId st.agents).isNone
  | _ => true

/-- Run a sequence of admin operations, additionally refusing an
`addAgent` whose agent id already has a record (the amendment claim C3
needs: the code's `addAgent` overwrites silently). -/
def runAdminOpsFresh (callCenterId : String) : List AdminOp → Store → Option Store
  | [], st => some st
  | op :: ops, st =>
    if freshFor op st then
      match applyAdminOp callCenterId op st with
      | (.ok _, st2) => runAdminOpsFresh callCenterId ops st2
      | (.error _, _) => none
    else none

/-- The agent/queue membership consistency of spec invariants 1 and 2,
restricted to the two statuses the admin operations produce: a
`LOGGED_OUT` agent lists no queues and sits in no logged-in set; an
`AVAILABLE` agent sits in the logged-in set of exactly the queues of its
`loggedInQueues`. -/
def agentQueueConsistent (st : Store) : Bool :=
  st.agents.all (fun p =>
    (if p.snd.status == "LOGGED_OUT" then
      p.snd.loggedInQueues.isEmpty &&
        st.loggedIn.all (fun ql => !(ql.snd.contains p.fst))
    else true)
    &&
    (if p.snd.status == "AVAILABLE" then
      p.snd.loggedInQueues.all (fun q => ((alGet q st.loggedIn).getD []).contains p.fst)
        && st.loggedIn.all (fun ql =>
            !(ql.snd.contains p.fst) || p.snd.loggedInQueues.contains ql.fst)
    else true))

/-! ## Call-router fragments — src/src/services/ariService.js -/

/-- The pieces of the caller channel object the routing fragment reads:
`channel.id`, `channel.caller.number` and `channel.state`. -/
structure ChannelInfo where
  id : String
  callerNumber : String
  state : String
deriving DecidableEq, Repr

/-- The origination request of ariService.js lines 95–101. -/
structure OriginateRequest where
  endpoint : String
  callerId : String
  app : String
  appArgs : String
  timeout : Nat
deriving DecidableEq, Repr

/-- A media-server action the router issues. -/
inductive AriAction where
  | originate (req : OriginateRequest)
  | startMoh (channelId : String) (musicClass : String)
deriving DecidableEq, Repr

/-- The request object literal of ariService.js lines 95–101. -/
def mkOriginateRequest (agentEndpoint : String) (ch : ChannelInfo) (appName : String) :
    OriginateRequest :=
  { endpoint := agentEndpoint, callerId := ch.callerNumber, app := appName,
    appArgs := "dialed_agent", timeout := 15 }

/-- The routing fragment after the selector returned an agent id
(ariService.js lines 78–111): fetch the agent; on a missing record or
empty endpoint re-enqueue the caller with the current time and start
music on hold; otherwise originate, and on an origination error
(`originationFails`) re-enqueue with the current time and start music on
hold.  The agent hash is never written on these paths — the status
transitions are TODO comments in the source.  The success continuation
(agent leg answering, bridging) lives in nested event handlers and is not
part of this fragment. -/
def handleAgentFound (callCenterId queueId agentId : String) (ch : ChannelInfo)
    (appName : String) (originationFails : Bool) (now : Nat) (st : Store) :
    Store × List AriAction :=
  match getAgentDetails callCenterId agentId st with
  | .error _ =>
    (addCallToQueue callCenterId queueId ⟨ch.id, ch.callerNumber, now⟩ st,
     [.startMoh ch.id "default"])
  | .ok a =>
    if a.endpoint.data.isEmpty then
      (addCallToQueue callCenterId queueId ⟨ch.id, ch.callerNumber, now⟩ st,
       [.startMoh ch.id "default"])
    else
      let req := mkOriginateRequest a.endpoint ch appName
      if originationFails then
        (addCallToQueue callCenterId queueId ⟨ch.id, ch.callerNumber, now⟩ st,
         [.originate req, .startMoh ch.id "default"])
      else (st, [.originate req])

/-- The `ChannelDestroyed` handler installed on the agent leg
(ariService.js lines 154–168): when the caller channel is still `Up`,
re-enqueue it with the current time and start music on hold. -/
def handleAgentChannelDestroyed (callCenterId queueId : String) (ch : ChannelInfo)
    (now : Nat) (st : Store) : Store × List AriAction :=
  if ch.state == "Up" then
    (addCallToQueue callCenterId queueId ⟨ch.id, ch.callerNumber, now⟩ st,
     [.startMoh ch.id "default"])
  else (st, [])

/-- The end minute of a time range after the `00:00`-end adjustment, as
the spec words it (a Prop-level mirror of the `let endTimeInMinutes` of
timeUtils.js lines 95–102, for readable theorem statements). -/
def adjustedEndMinutes (startHour startMinute endHour endMinute : Nat) : Nat :=
  if endHour = 0 ∧ endMinute = 0 ∧ 0 < startHour * 60 + startMinute then 1440
  else endHour * 60 + endMinute

/-! ## Concrete fixtures used by witnesses and counterexamples -/

/-- A time instant: Monday 10:00. -/
def monTen : JsDate := ⟨1, 10, 0⟩

/-- Three always-on-shift available agents logged into `Q1`, the
logged-in set listed in arbitrary (non-sorted) order. -/
def threeAgentStore : Store :=
  { emptyStore with
    agents := [("agentA", ⟨"A", "PJSIP/a", "24/7", "AVAILABLE", ["Q1"]⟩),
               ("agentB", ⟨"B", "PJSIP/b", "24/7", "AVAILABLE", ["Q1"]⟩),
               ("agentC", ⟨"C", "PJSIP/c", "24/7", "AVAILABLE", ["Q1"]⟩)],
    loggedIn := [("Q1", ["agentC", "agentA", "agentB"])] }

/-- An admin sequence that succeeds step by step yet breaks the
membership invariant: the final `addAgent` overwrites the logged-in
agent's hash back to `LOGGED_OUT`/no queues while `Q1`'s logged-in set
still contains the agent. -/
def overwriteOps : List AdminOp :=
  [.add "agentA" "Alice" "PJSIP/a" "24/7",
   .login "agentA" ["Q1"] true monTen,
   .add "agentA" "Alice" "PJSIP/a" "24/7"]

/-- A caller channel fixture. -/
def callerCh : ChannelInfo := ⟨"chan1", "5551234", "Up"⟩

/-- An admin sequence (with fresh agent creation) exercising add, forced
login and logout. -/
def goodOps : List AdminOp :=
  [.add "agentA" "Alice" "PJSIP/a" "24/7",
   .add "agentB" "Bob" "PJSIP/b" "24/7",
   .login "agentA" ["Q1", "Q2"] true monTen,
   .login "agentB" ["Q1"] true monTen,
   .logout "agentA"]

/-- The induction invariant for admin-operation sequences: association
keys are duplicate-free, the operations only ever produce the statuses
`LOGGED_OUT` and `AVAILABLE`, a logged-out agent lists no queues and sits
in no logged-in set, an available agent sits in exactly the sets of its
`loggedInQueues`, and every member of a logged-in set has an agent
record. -/
structure AdminInv (st : Store) : Prop where
  agentsKeys : (st.agents.map Prod.fst).Nodup
  loggedKeys : (st.loggedIn.map Prod.fst).Nodup
  statusOK : ∀ aid a, alGet aid st.agents = some a →
    a.status = "LOGGED_OUT" ∨ a.status = "AVAILABLE"
  loggedOutClean : ∀ aid a, alGet aid st.agents = some a → a.status = "LOGGED_OUT" →
    a.loggedInQueues = [] ∧ ∀ q, aid ∉ (alGet q st.loggedIn).getD []
  availSets : ∀ aid a, alGet aid st.agents = some a → a.status = "AVAILABLE" →
    ∀ q, (aid ∈ (alGet q st.loggedIn).getD [] ↔ q ∈ a.loggedInQueues)
  memberKnown : ∀ q aid, aid ∈ (alGet q st.loggedIn).getD [] →
    ∃ a, alGet aid st.agents = some a

/-! # Theorems -/

/-! ## Association-list and set helper lemmas -/

theorem alGet_alSet_self {β : Type} (k : String) (v : β) (l : List (String × β)) :
    alGet k (alSet k v l) = some v := by
  induction l with
  | nil => simp [alGet, alSet]
  | cons p rest ih =>
    obtain ⟨k2, v2⟩ := p
    by_cases h : k2 = k
    · simp [alGet, alSet, h]
    · simp [alGet, alSet, h, ih]

theorem alGet_alSet_ne {β : Type} {k k2 : String} (hne : k2 ≠ k) (v : β)
    (l : List (String × β)) : alGet k2 (alSet k v l) = alGet k2 l := by
  induction l with
  | nil => simp [alGet, alSet, Ne.symm hne]
  | cons p rest ih =>
    obtain ⟨k3, v3⟩ := p
    by_cases h : k3 = k
    · subst h
      simp [alGet, alSet, Ne.symm hne]
    · simp only [alSet, beq_iff_eq, h, if_false]
      by_cases h2 : k3 = k2 <;> simp [alGet, h2, ih]

theorem alGet_eq_none_iff {β : Type} (k : String) (l : List (String × β)) :
    alGet k l = none ↔ k ∉ l.map Prod.fst := by
  induction l with
  | nil => simp [alGet]
  | cons p rest ih =>
    obtain ⟨k2, v2⟩ := p
    by_cases h : k2 = k
    · subst h
      simp [alGet]
    · simp only [alGet, beq_iff_eq, h, if_false, List.map_cons, List.mem_cons]
      rw [ih]
      constructor
      · intro hk hor
        rcases hor with he | hm
        · exact h he.symm
        · exact hk hm
      · intro hk hm
        exact hk (Or.inr hm)

theorem alSet_keys_of_get_some {β : Type} {k : String} {l : List (String × β)} {v0 : β}
    (h : alGet k l = some v0) (v : β) :
    (alSet k v l).map Prod.fst = l.map Prod.fst := by
  induction l with
  | nil => simp [alGet] at h
  | cons p rest ih =>
    obtain ⟨k2, v2⟩ := p
    by_cases h2 : k2 = k
    · simp [alSet, h2]
    · simp only [alGet, beq_iff_eq, h2, if_false] at h
      simp [alSet, h2, ih h]

theorem alSet_keys_of_get_none {β : Type} {k : String} {l : List (String × β)}
    (h : alGet k l = none) (v : β) :
    (alSet k v l).map Prod.fst = l.map Prod.fst ++ [k] := by
  induction l with
  | nil => simp [alSet]
  | cons p rest ih =>
    obtain ⟨k2, v2⟩ := p
    by_cases h2 : k2 = k
    · simp [alGet, h2] at h
    · simp only [alGet, beq_iff_eq, h2, if_false] at h
      simp [alSet, h2, ih h]

theorem alSet_keys_nodup {β : Type} {l : List (String × β)} (k : String) (v : β)
    (h : (l.map Prod.fst).Nodup) : ((alSet k v l).map Prod.fst).Nodup := by
  cases hg : alGet k l with
  | none =>
    rw [alSet_keys_of_get_none hg]
    have : k ∉ l.map Prod.fst := (alGet_eq_none_iff k l).mp hg
    simp [List.nodup_append, h, this]
  | some v0 => rw [alSet_keys_of_get_some hg]; exact h

theorem alGet_of_mem_nodup {β : Type} {l : List (String × β)} {k : String} {v : β}
    (hnd : (l.map Prod.fst).Nodup) (hm : (k, v) ∈ l) : alGet k l = some v := by
  induction l with
  | nil => simp at hm
  | cons p rest ih =>
    obtain ⟨k2, v2⟩ := p
    simp only [List.map_cons, List.nodup_cons] at hnd
    rcases List.mem_cons.mp hm with h | h
    · obtain ⟨hk, hv⟩ := Prod.mk.injEq .. ▸ h
      simp only [Prod.mk.injEq] at h
      simp [alGet, h.1, h.2]
    · have hk2 : k2 ≠ k := by
        intro he
        exact hnd.1 (he ▸ (List.mem_map.mpr ⟨(k, v), h, rfl⟩))
      simp [alGet, hk2, ih hnd.2 h]

theorem mem_saddElem {l : List String} {x y : String} :
    x ∈ saddElem l y ↔ x ∈ l ∨ x = y := by
  unfold saddElem
  by_cases h : y ∈ l
  · rw [if_pos (by simpa [List.contains] using List.elem_iff.mpr h)]
    constructor
    · exact Or.inl
    · rintro (hx | hx)
      · exact hx
      · exact hx ▸ h
  · rw [if_neg (by simpa [List.contains] using fun hc => h (List.elem_iff.mp hc))]
    simp [List.mem_append]

theorem mem_sremElem {l : List String} {x y : String} :
    x ∈ sremElem l y ↔ x ∈ l ∧ x ≠ y := by
  simp [sremElem, List.mem_filter, bne_iff_ne]

/-! ## Timing helper lemmas -/

theorem parseTimePair_empty : parseTimePair ⟨[]⟩ = none := rfl

theorem parseTimePair_data_ne_nil {s : String} {p : Nat × Nat}
    (h : parseTimePair s = some p) : s.data ≠ [] := by
  intro hd
  cases s with
  | mk data =>
    simp only at hd
    subst hd
    rw [parseTimePair_empty] at h
    exact Option.noConfusion h

/-- The Bool-valued end-of-day adjustment of timeUtils.js equals the
Prop-level `adjustedEndMinutes`. -/
theorem adjustedEnd_boolIf (startHour startMinute endHour endMinute : Nat) :
    (if endHour == 0 && endMinute == 0 && decide (0 < startHour * 60 + startMinute)
      then 1440 else endHour * 60 + endMinute) =
      adjustedEndMinutes startHour startMinute endHour endMinute := by
  unfold adjustedEndMinutes
  by_cases hadj : endHour = 0 ∧ endMinute = 0 ∧ 0 < startHour * 60 + startMinute
  · have hb : (endHour == 0 && endMinute == 0 &&
        decide (0 < startHour * 60 + startMinute)) = true := by
      simp [hadj.1, hadj.2.1, hadj.2.2]
    rw [if_pos hadj, if_pos hb]
  · have hb : (endHour == 0 && endMinute == 0 &&
        decide (0 < startHour * 60 + startMinute)) = false := by
      rcases Decidable.not_and_iff_or_not.mp hadj with h | h
      · simp [h]
      · rcases Decidable.not_and_iff_or_not.mp h with h2 | h2 <;> simp [h2]
    rw [if_neg hadj, if_neg (by rw [hb]; simp)]

/-- `timeRangeAdmits` written with `adjustedEndMinutes`. -/
theorem timeRangeAdmits_eq_ite (startHour startMinute endHour endMinute cur : Nat) :
    timeRangeAdmits startHour startMinute endHour endMinute cur =
      if startHour * 60 + startMinute ≤
          adjustedEndMinutes startHour startMinute endHour endMinute then
        decide (startHour * 60 + startMinute ≤ cur) &&
          decide (cur < adjustedEndMinutes startHour startMinute endHour endMinute)
      else false := by
  simp only [timeRangeAdmits, adjustedEnd_boolIf]

/-- `timeRangeAdmits` in the vocabulary of the spec: when the range is
not inverted it admits exactly the minutes from the start (inclusive) to
the adjusted end (exclusive). -/
theorem timeRangeAdmits_iff {startHour startMinute endHour endMinute : Nat} (cur : Nat)
    (hwf : startHour * 60 + startMinute ≤
      adjustedEndMinutes startHour startMinute endHour endMinute) :
    timeRangeAdmits startHour startMinute endHour endMinute cur = true ↔
      (startHour * 60 + startMinute ≤ cur ∧
        cur < adjustedEndMinutes startHour startMinute endHour endMinute) := by
  rw [timeRangeAdmits_eq_ite, if_pos hwf]
  simp only [Bool.and_eq_true, decide_eq_true_eq]

/-- The inverted case: `timeRangeAdmits` is `false` whenever the adjusted
end lies strictly before the start. -/
theorem timeRangeAdmits_eq_false {startHour startMinute endHour endMinute : Nat}
    (cur : Nat)
    (hinv : adjustedEndMinutes startHour startMinute endHour endMinute <
      startHour * 60 + startMinute) :
    timeRangeAdmits startHour startMinute endHour endMinute cur = false := by
  rw [timeRangeAdmits_eq_ite, if_neg (Nat.not_le.mpr hinv)]

/-- `checkTimeRange` on a range that validates reduces to the numeric
admission test. -/
theorem checkTimeRange_eq {rangeStr : String}
    {startHour startMinute endHour endMinute : Nat} (cur : Nat)
    (hp : parseRange rangeStr = some (startHour, startMinute, endHour, endMinute)) :
    checkTimeRange rangeStr cur =
      timeRangeAdmits startHour startMinute endHour endMinute cur := by
  unfold checkTimeRange
  rw [hp]

/-- `rangeIsInverted` decodes to the strict inequality on the parsed
minutes. -/
theorem rangeIsInverted_eq {rangeStr : String}
    {startHour startMinute endHour endMinute : Nat}
    (hp : parseRange rangeStr = some (startHour, startMinute, endHour, endMinute)) :
    rangeIsInverted rangeStr =
      decide (adjustedEndMinutes startHour startMinute endHour endMinute <
        startHour * 60 + startMinute) := by
  unfold rangeIsInverted
  rw [hp]
  simp only [adjustedEnd_boolIf]

/-- A range flagged as inverted admits no minute at all. -/
theorem checkTimeRange_eq_false_of_inverted {rangeStr : String}
    (hinv : rangeIsInverted rangeStr = true) (cur : Nat) :
    checkTimeRange rangeStr cur = false := by
  rcases hp : parseRange rangeStr with _ | ⟨sh, sm, eh, em⟩
  · unfold checkTimeRange
    rw [hp]
  · rw [rangeIsInverted_eq hp] at hinv
    rw [checkTimeRange_eq cur hp]
    exact timeRangeAdmits_eq_false cur (decide_eq_true_eq.mp hinv)

/-- A true `parseTimings` on a non-`24/7` string exhibits an admitting
rule. -/
theorem parseTimings_exists_rule {s : String} {t : JsDate}
    (h : parseTimings s t = true) :
    jsToUpper (jsTrim s) = "24/7" ∨
      ∃ rule ∈ jsSplit s '|',
        ruleAdmits rule t.getDay (currentTimeInMinutes t) = true := by
  unfold parseTimings at h
  by_cases he : s.data.isEmpty
  · rw [if_pos he] at h; exact absurd h (by simp)
  rw [if_neg he] at h
  by_cases h24 : jsToUpper (jsTrim s) == "24/7"
  · exact Or.inl (beq_iff_eq.mp h24)
  · rw [if_neg (by simpa using h24)] at h
    exact Or.inr (by simpa using List.any_eq_true.mp h)

/-- A true `ruleAdmits` exhibits an admitting time range of the rule. -/
theorem ruleAdmits_exists_range {rule : String} {d : Fin 7} {cur : Nat}
    (h : ruleAdmits rule d cur = true) :
    ∃ rg ∈ ruleTimeRanges rule, checkTimeRange rg cur = true := by
  unfold ruleAdmits at h
  unfold ruleTimeRanges
  rcases hsp : jsSplit (jsTrim rule) ';' with _ | ⟨a, rest⟩
  · rw [hsp] at h; simp at h
  rcases rest with _ | ⟨b, rest2⟩
  · rw [hsp] at h; simp at h
  rcases rest2 with _ | ⟨c, rest3⟩
  · rw [hsp] at h
    have h2 : (if ((jsSplit b ',').any fun seg => daySegmentMatches seg d) = true
        then (jsSplit a ',').any fun r => checkTimeRange r cur
        else false) = true := h
    show ∃ rg ∈ jsSplit a ',', checkTimeRange rg cur = true
    by_cases hd : ((jsSplit b ',').any fun seg => daySegmentMatches seg d) = true
    · rw [if_pos hd] at h2
      simpa using List.any_eq_true.mp h2
    · rw [if_neg hd] at h2
      exact absurd h2 (by simp)
  · rw [hsp] at h; simp at h

/-! ## C6 -/

/-- C6: a day-matched rule range whose start minute strictly exceeds its
(adjusted) end minute is inactive and never by itself makes `parseTimings`
true: whenever `parseTimings` returns `true` on a non-`24/7` string, some
rule admits the instant through a range that is *not* inverted, and an
inverted range admits no minute at all. -/
theorem c6_inverted_range_never_admits {s : String} {t : JsDate}
    (h : parseTimings s t = true) :
    jsToUpper (jsTrim s) = "24/7" ∨
      ∃ rule ∈ jsSplit s '|',
        ruleAdmits rule t.getDay (currentTimeInMinutes t) = true ∧
          ∃ rg ∈ ruleTimeRanges rule,
            checkTimeRange rg (currentTimeInMinutes t) = true ∧
              rangeIsInverted rg = false := by
  rcases parseTimings_exists_rule h with h24 | ⟨rule, hmem, hrule⟩
  · exact Or.inl h24
  · refine Or.inr ⟨rule, hmem, hrule, ?_⟩
    rcases ruleAdmits_exists_range hrule with ⟨rg, hrg, hchk⟩
    refine ⟨rg, hrg, hchk, ?_⟩
    cases hinv : rangeIsInverted rg with
    | false => rfl
    | true =>
      rw [checkTimeRange_eq_false_of_inverted hinv] at hchk
      exact absurd hchk (by simp)

/-- Witness for C6 at a concrete input: the string has an inverted range
(`22:00-02:00` on Monday) and a normal one; at Monday 10:00 the result is
true, through the non-inverted range alone. -/
theorem c6_witness :
    jsToUpper (jsTrim "22:00-02:00;Mon|09:00-17:00;Mon") = "24/7" ∨
      ∃ rule ∈ jsSplit "22:00-02:00;Mon|09:00-17:00;Mon" '|',
        ruleAdmits rule monTen.getDay (currentTimeInMinutes monTen) = true ∧
          ∃ rg ∈ ruleTimeRanges rule,
            checkTimeRange rg (currentTimeInMinutes monTen) = true ∧
              rangeIsInverted rg = false :=
  c6_inverted_range_never_admits (by decide)

/-! ## C7 -/

/-- C7: for a well-formed (non-inverted, parseable) time range on a
day-matched rule, `parseTimings` admits the instant exactly when the
minute of day lies in `[start, adjustedEnd)`, where an end of `00:00`
with a nonzero start reads as minute 1440.  The string is taken with this
single rule and single range so that `parseTimings` is decided by that
range alone. -/
theorem c7_range_inclusive_exclusive
    {s rule timeRangesStr daysStr rangeStr : String}
    {t : JsDate} {startHour startMinute endHour endMinute : Nat}
    (hne : ¬s.data.isEmpty)
    (h24 : ¬jsToUpper (jsTrim s) = "24/7")
    (hrules : jsSplit s '|' = [rule])
    (hparts : jsSplit (jsTrim rule) ';' = [timeRangesStr, daysStr])
    (hday : (jsSplit daysStr ',').any
      (fun seg => daySegmentMatches seg t.getDay) = true)
    (hranges : jsSplit timeRangesStr ',' = [rangeStr])
    (hp : parseRange rangeStr = some (startHour, startMinute, endHour, endMinute))
    (hwf : startHour * 60 + startMinute ≤
      adjustedEndMinutes startHour startMinute endHour endMinute) :
    parseTimings s t = true ↔
      (startHour * 60 + startMinute ≤ currentTimeInMinutes t ∧
        currentTimeInMinutes t <
          adjustedEndMinutes startHour startMinute endHour endMinute) := by
  unfold parseTimings
  rw [if_neg hne, if_neg (by simpa using h24), hrules]
  simp only [List.any_cons, List.any_nil, Bool.or_false]
  unfold ruleAdmits
  rw [hparts]
  show (if ((jsSplit daysStr ',').any fun seg => daySegmentMatches seg t.getDay) = true
      then (jsSplit timeRangesStr ',').any
        fun r => checkTimeRange r (currentTimeInMinutes t)
      else false) = true ↔ _
  rw [if_pos hday, hranges]
  simp only [List.any_cons, List.any_nil, Bool.or_false]
  rw [checkTimeRange_eq (currentTimeInMinutes t) hp]
  exact timeRangeAdmits_iff (currentTimeInMinutes t) hwf

/-- Witness for C7 at a concrete input: rule `09:00-00:00;Mon` (the
special `00:00` end) at Monday 10:00; both the hypothesis side and both
directions of the equivalence are evaluated. -/
theorem c7_witness :
    parseTimings "09:00-00:00;Mon" monTen = true ↔
      (9 * 60 + 0 ≤ currentTimeInMinutes monTen ∧
        currentTimeInMinutes monTen < adjustedEndMinutes 9 0 0 0) :=
  c7_range_inclusive_exclusive (s := "09:00-00:00;Mon")
    (by decide) (by decide)
    (by decide : jsSplit "09:00-00:00;Mon" '|' = ["09:00-00:00;Mon"])
    (by decide : jsSplit (jsTrim "09:00-00:00;Mon") ';' = ["09:00-00:00", "Mon"])
    (by decide : ((jsSplit "Mon" ',').any
      fun seg => daySegmentMatches seg monTen.getDay) = true)
    (by decide : jsSplit "09:00-00:00" ',' = ["09:00-00:00"])
    (by decide : parseRange "09:00-00:00" = some (9, 0, 0, 0))
    (by decide)

/-! ## Repository helper lemmas -/

theorem getAgentDetails_eq_error {callCenterId agentId : String} {st : Store}
    (hcc : ¬callCenterId.data.isEmpty = true) (hid : ¬agentId.data.isEmpty = true)
    (h : alGet agentId st.agents = none) :
    getAgentDetails callCenterId agentId st = .error "Agent not found." := by
  unfold getAgentDetails
  rw [if_neg (by simp [hcc, hid]), h]

theorem getAgentDetails_eq_ok {callCenterId agentId : String} {st : Store}
    {a : AgentRecord}
    (hcc : ¬callCenterId.data.isEmpty = true) (hid : ¬agentId.data.isEmpty = true)
    (h : alGet agentId st.agents = some a) :
    getAgentDetails callCenterId agentId st = .ok a := by
  unfold getAgentDetails
  rw [if_neg (by simp [hcc, hid]), h]

theorem isAgentOnShift_eq_ok {callCenterId agentId : String} {st : Store}
    {a : AgentRecord} (now : JsDate)
    (hcc : ¬callCenterId.data.isEmpty = true) (hid : ¬agentId.data.isEmpty = true)
    (h : alGet agentId st.agents = some a) :
    isAgentOnShift callCenterId agentId now st = .ok (parseTimings a.shiftTimings now) := by
  unfold isAgentOnShift
  rw [getAgentDetails_eq_ok hcc hid h]

theorem alGet_foldl_sadd_mem (agentId : String) (queueIds : List String)
    (acc : List (String × List String)) (k x : String) :
    (x ∈ (alGet k (queueIds.foldl
        (fun acc2 q => alSet q (saddElem ((alGet q acc2).getD []) agentId) acc2)
        acc)).getD []) ↔
      (x ∈ (alGet k acc).getD []) ∨ (x = agentId ∧ k ∈ queueIds) := by
  induction queueIds generalizing acc with
  | nil => simp
  | cons q qs ih =>
    simp only [List.foldl_cons]
    rw [ih]
    by_cases hkq : k = q
    · subst hkq
      rw [alGet_alSet_self]
      simp only [Option.getD_some, List.mem_cons]
      rw [mem_saddElem]
      tauto
    · rw [alGet_alSet_ne hkq]
      simp only [List.mem_cons]
      constructor
      · rintro (hm | ⟨hx, hk⟩)
        · exact Or.inl hm
        · exact Or.inr ⟨hx, Or.inr hk⟩
      · rintro (hm | ⟨hx, hq | hk⟩)
        · exact Or.inl hm
        · exact absurd hq hkq
        · exact Or.inr ⟨hx, hk⟩

theorem alGet_foldl_srem_mem (agentId : String) (queueIds : List String)
    (acc : List (String × List String)) (k x : String) :
    (x ∈ (alGet k (queueIds.foldl
        (fun acc2 q => alSet q (sremElem ((alGet q acc2).getD []) agentId) acc2)
        acc)).getD []) ↔
      (x ∈ (alGet k acc).getD []) ∧ ¬(x = agentId ∧ k ∈ queueIds) := by
  induction queueIds generalizing acc with
  | nil => simp
  | cons q qs ih =>
    simp only [List.foldl_cons]
    rw [ih]
    by_cases hkq : k = q
    · subst hkq
      rw [alGet_alSet_self]
      simp only [Option.getD_some, List.mem_cons]
      rw [mem_sremElem]
      tauto
    · rw [alGet_alSet_ne hkq]
      simp only [List.mem_cons]
      constructor
      · rintro ⟨hm, hno⟩
        refine ⟨hm, ?_⟩
        rintro ⟨hx, hq | hk⟩
        · exact hkq hq
        · exact hno ⟨hx, hk⟩
      · rintro ⟨hm, hno⟩
        exact ⟨hm, fun hc => hno ⟨hc.1, Or.inr hc.2⟩⟩

theorem foldl_update_keys_nodup {β : Type}
    (v : List (String × β) → String → β) (qs : List String)
    (acc : List (String × β)) (h : (acc.map Prod.fst).Nodup) :
    (((qs.foldl (fun acc2 q => alSet q (v acc2 q) acc2) acc)).map Prod.fst).Nodup := by
  induction qs generalizing acc with
  | nil => exact h
  | cons q rest ih => exact ih _ (alSet_keys_nodup _ _ h)

/-! ## C1 -/

/-- C1 (the code-level fact behind the claim): the routing fragment that
runs after the selector returned an agent never writes the agent hash at
all — in particular it does not set `RINGING` before the origination and
does not restore `AVAILABLE` after an origination error; those
transitions are TODO comments at ariService.js lines 90–91 and 104–106.
It does re-enqueue the caller and start music on hold (see C5). -/
theorem c1_agent_status_never_written
    (callCenterId queueId agentId : String) (ch : ChannelInfo) (appName : String)
    (originationFails : Bool) (now : Nat) (st : Store) :
    ((handleAgentFound callCenterId queueId agentId ch appName originationFails now
      st).fst).agents = st.agents := by
  unfold handleAgentFound addCallToQueue
  cases getAgentDetails callCenterId agentId st with
  | error e => rfl
  | ok a =>
    dsimp only
    split_ifs <;> rfl

/-! ## C5 -/

/-- C5: every record the router fragment re-enqueues — after an
origination error, after a missing agent record or missing endpoint
(first conjunct covers all three, since with `originationFails = true`
each branch of `handleAgentFound` appends), and after the agent leg was
destroyed with the caller still up — is appended at the tail and carries
`enqueueTime = now`, the time of the re-enqueue.  The closure state the
source keeps for the caller (`channel.id`, `channel.caller.number`)
carries no enqueue time, so the claim's preserve-if-carried case is
vacuous and the current time is always used. -/
theorem c5_requeue_appends_with_current_time
    (callCenterId queueId agentId : String) (ch : ChannelInfo) (appName : String)
    (now : Nat) (st : Store) (hup : ch.state = "Up") :
    alGet queueId ((handleAgentFound callCenterId queueId agentId ch appName true now
        st).fst).calls =
      some (((alGet queueId st.calls).getD []) ++ [⟨ch.id, ch.callerNumber, now⟩]) ∧
    alGet queueId ((handleAgentChannelDestroyed callCenterId queueId ch now
        st).fst).calls =
      some (((alGet queueId st.calls).getD []) ++ [⟨ch.id, ch.callerNumber, now⟩]) := by
  constructor
  · unfold handleAgentFound addCallToQueue
    cases getAgentDetails callCenterId agentId st with
    | error e => exact alGet_alSet_self _ _ _
    | ok a =>
      dsimp only
      split_ifs with h1 h2
      · exact alGet_alSet_self _ _ _
      · exact alGet_alSet_self _ _ _
      · exact absurd rfl h2
  · unfold handleAgentChannelDestroyed addCallToQueue
    rw [if_pos (by simp [hup])]
    exact alGet_alSet_self _ _ _

/-- A store in which queue `Q1` already holds an older waiting record. -/
def requeueStore : Store :=
  { emptyStore with calls := [("Q1", [⟨"chan0", "5550000", 5⟩])] }

/-- Witness for C5 at a concrete input: the queue already holds an older
record (enqueue time 5); the re-enqueued record for the caller carries
the re-enqueue time 999, not any earlier time. -/
theorem c5_witness :
    alGet "Q1" ((handleAgentFound "cc1" "Q1" "agentX" callerCh "dialer" true 999
        requeueStore).fst).calls =
      some (((alGet "Q1" requeueStore.calls).getD []) ++
        [⟨callerCh.id, callerCh.callerNumber, 999⟩]) ∧
    alGet "Q1" ((handleAgentChannelDestroyed "cc1" "Q1" callerCh 999
        requeueStore).fst).calls =
      some (((alGet "Q1" requeueStore.calls).getD []) ++
        [⟨callerCh.id, callerCh.callerNumber, 999⟩]) :=
  c5_requeue_appends_with_current_time "cc1" "Q1" "agentX" callerCh "dialer" 999
    requeueStore rfl

/-! ## C9 -/

/-- Counterexample to C9 as stated: the origination request the router
issues for agent `agentA` carries the application-argument marker
`"dialed_agent"` (ariService.js line 99), not `"agent_leg"`. -/
theorem c9_counterexample :
    AriAction.originate (mkOriginateRequest "PJSIP/a" callerCh "dialer") ∈
      (handleAgentFound "cc1" "Q1" "agentA" callerCh "dialer" false 0
        threeAgentStore).snd ∧
      (mkOriginateRequest "PJSIP/a" callerCh "dialer").appArgs ≠ "agent_leg" := by
  constructor
  · decide
  · decide

/-- C9 as amended: every origination request the router fragment issues
carries caller id equal to the caller's number, the routing application's
name, the `"dialed_agent"` agent-leg marker argument, and a fixed
15-second answer timeout, and is addressed to the selected agent's
endpoint. -/
theorem c9_origination_request_fields
    (callCenterId queueId agentId appName : String) (ch : ChannelInfo)
    (originationFails : Bool) (now : Nat) (st : Store) (req : OriginateRequest)
    (hmem : AriAction.originate req ∈
      (handleAgentFound callCenterId queueId agentId ch appName originationFails now
        st).snd) :
    req.callerId = ch.callerNumber ∧ req.app = appName ∧
      req.appArgs = "dialed_agent" ∧ req.timeout = 15 ∧
      ∃ a, getAgentDetails callCenterId agentId st = .ok a ∧
        req.endpoint = a.endpoint := by
  unfold handleAgentFound at hmem
  cases hga : getAgentDetails callCenterId agentId st with
  | error e => rw [hga] at hmem; simp at hmem
  | ok a =>
    rw [hga] at hmem
    dsimp only at hmem
    by_cases he : a.endpoint.data.isEmpty = true
    · rw [if_pos he] at hmem
      simp at hmem
    · rw [if_neg he] at hmem
      by_cases hf : originationFails = true
      · rw [if_pos hf] at hmem
        simp only [List.mem_cons, List.mem_singleton] at hmem
        rcases hmem with hmem | hmem
        · obtain rfl : req = mkOriginateRequest a.endpoint ch appName :=
            AriAction.originate.injEq .. ▸ (by simpa using hmem)
          exact ⟨rfl, rfl, rfl, rfl, a, rfl, rfl⟩
        · exact absurd hmem (by simp)
      · rw [if_neg hf] at hmem
        simp only [List.mem_singleton] at hmem
        obtain rfl : req = mkOriginateRequest a.endpoint ch appName := by
          simpa using hmem
        exact ⟨rfl, rfl, rfl, rfl, a, rfl, rfl⟩

/-- Witness for C9's amended theorem at a concrete input. -/
theorem c9_witness :
    (mkOriginateRequest "PJSIP/a" callerCh "dialer").callerId = callerCh.callerNumber ∧
      (mkOriginateRequest "PJSIP/a" callerCh "dialer").app = "dialer" ∧
      (mkOriginateRequest "PJSIP/a" callerCh "dialer").appArgs = "dialed_agent" ∧
      (mkOriginateRequest "PJSIP/a" callerCh "dialer").timeout = 15 ∧
      ∃ a, getAgentDetails "cc1" "agentA" threeAgentStore = .ok a ∧
        (mkOriginateRequest "PJSIP/a" callerCh "dialer").endpoint = a.endpoint :=
  c9_origination_request_fields "cc1" "Q1" "agentA" "dialer" callerCh false 0
    threeAgentStore (mkOriginateRequest "PJSIP/a" callerCh "dialer") (by decide)

/-! ## C10 -/

/-- C10: when the selector returns without selecting (no logged-in
agents, or none eligible, or a selection error), the queue's `lastAgentRR`
pointer — indeed the whole store — is unchanged; the pointer is written
exactly on a successful selection, to the selected agent id. -/
theorem c10_pointer_written_only_on_selection
    (callCenterId queueId : String) (now : JsDate) (st : Store) :
    ((findAgentForCall_RoundRobin callCenterId queueId now st).fst = .ok none →
      (findAgentForCall_RoundRobin callCenterId queueId now st).snd = st) ∧
    (∀ e, (findAgentForCall_RoundRobin callCenterId queueId now st).fst = .error e →
      (findAgentForCall_RoundRobin callCenterId queueId now st).snd = st) ∧
    (∀ a, (findAgentForCall_RoundRobin callCenterId queueId now st).fst =
        .ok (some a) →
      alGet queueId
        ((findAgentForCall_RoundRobin callCenterId queueId now st).snd).lastAgentRR =
        some a) := by
  unfold findAgentForCall_RoundRobin
  split_ifs with h1 h2 h3 h4
  · exact ⟨fun h => rfl, fun e he => rfl, fun a ha => by simp at ha⟩
  · exact ⟨fun h => rfl, fun e he => rfl, fun a ha => by simp at ha⟩
  · exact ⟨fun h => rfl, fun e he => rfl, fun a ha => by simp at ha⟩
  · exact ⟨fun h => rfl, fun e he => rfl, fun a ha => by simp at ha⟩
  · refine ⟨fun h => by simp at h, fun e he => by simp at he, fun a ha => ?_⟩
    have : a = rrSelect
        (sortStrings (eligibleAgents callCenterId
          ((alGet queueId st.loggedIn).getD []) now st))
        (alGet queueId st.lastAgentRR) := by
      simpa using ha.symm
    subst this
    exact alGet_alSet_self _ _ _

/-- Witness for C10 at concrete inputs: an unknown queue leaves the store
(and so the pointer key) unchanged, and a successful selection writes the
selected agent back. -/
theorem c10_witness :
    (findAgentForCall_RoundRobin "cc1" "QX" monTen threeAgentStore).snd =
      threeAgentStore ∧
    alGet "Q1"
      ((findAgentForCall_RoundRobin "cc1" "Q1" monTen threeAgentStore).snd).lastAgentRR =
      some "agentA" :=
  ⟨(c10_pointer_written_only_on_selection "cc1" "QX" monTen threeAgentStore).1 rfl,
   (c10_pointer_written_only_on_selection "cc1" "Q1" monTen threeAgentStore).2.2
      "agentA" rfl⟩

/-! ## C8 -/

theorem shiftCheckPasses_eq {callCenterId agentId : String} {st : Store}
    {a : AgentRecord} (forceLogin : Bool) (now : JsDate)
    (hcc : ¬callCenterId.data.isEmpty = true) (hid : ¬agentId.data.isEmpty = true)
    (h : alGet agentId st.agents = some a) :
    shiftCheckPasses callCenterId agentId forceLogin now st =
      (forceLogin || parseTimings a.shiftTimings now) := by
  unfold shiftCheckPasses
  rw [isAgentOnShift_eq_ok now hcc hid h]

/-- C8: `agentLogin` fails and leaves the store untouched when the agent
is unknown, when its status is not `LOGGED_OUT`, or when neither the
force flag nor the shift check holds; otherwise it succeeds, sets the
agent `AVAILABLE` with `loggedInQueues = queueIds`, and adds the agent to
each listed queue's logged-in set. -/
theorem c8_agentLogin_contract (callCenterId agentId : String) (queueIds : List String)
    (forceLogin : Bool) (now : JsDate) (st : Store)
    (hcc : ¬callCenterId.data.isEmpty = true) (hid : ¬agentId.data.isEmpty = true) :
    ((alGet agentId st.agents = none →
      (∃ e, (agentLogin callCenterId agentId queueIds forceLogin now st).fst =
        .error e) ∧
      (agentLogin callCenterId agentId queueIds forceLogin now st).snd = st) ∧
     (∀ a, alGet agentId st.agents = some a → a.status ≠ "LOGGED_OUT" →
      (∃ e, (agentLogin callCenterId agentId queueIds forceLogin now st).fst =
        .error e) ∧
      (agentLogin callCenterId agentId queueIds forceLogin now st).snd = st) ∧
     (∀ a, alGet agentId st.agents = some a → a.status = "LOGGED_OUT" →
        forceLogin = false → parseTimings a.shiftTimings now = false →
      (∃ e, (agentLogin callCenterId agentId queueIds forceLogin now st).fst =
        .error e) ∧
      (agentLogin callCenterId agentId queueIds forceLogin now st).snd = st) ∧
     (∀ a, alGet agentId st.agents = some a → a.status = "LOGGED_OUT" →
        (forceLogin = true ∨ parseTimings a.shiftTimings now = true) →
      ((agentLogin callCenterId agentId queueIds forceLogin now st).fst = .ok () ∧
       alGet agentId
         ((agentLogin callCenterId agentId queueIds forceLogin now st).snd).agents =
         some { a with status := "AVAILABLE", loggedInQueues := queueIds } ∧
       ∀ q ∈ queueIds, agentId ∈
         ((alGet q ((agentLogin callCenterId agentId queueIds forceLogin now
           st).snd).loggedIn).getD [])))) := by
  refine ⟨?_, ?_, ?_, ?_⟩
  · intro hnone
    unfold agentLogin
    rw [if_neg (by simp [hcc, hid]), getAgentDetails_eq_error hcc hid hnone]
    exact ⟨⟨_, rfl⟩, rfl⟩
  · intro a ha hst
    unfold agentLogin
    rw [if_neg (by simp [hcc, hid]), getAgentDetails_eq_ok hcc hid ha]
    dsimp only
    rw [if_pos (by simpa [bne_iff_ne] using hst)]
    exact ⟨⟨_, rfl⟩, rfl⟩
  · intro a ha hst hforce hshift
    unfold agentLogin
    rw [if_neg (by simp [hcc, hid]), getAgentDetails_eq_ok hcc hid ha]
    dsimp only
    rw [if_neg (by simp [hst])]
    rw [if_pos (by
      rw [shiftCheckPasses_eq forceLogin now hcc hid ha, hforce, hshift]
      rfl)]
    exact ⟨⟨_, rfl⟩, rfl⟩
  · intro a ha hst hpass
    unfold agentLogin
    rw [if_neg (by simp [hcc, hid]), getAgentDetails_eq_ok hcc hid ha]
    dsimp only
    rw [if_neg (by simp [hst])]
    rw [if_neg (by
      rw [shiftCheckPasses_eq forceLogin now hcc hid ha]
      rcases hpass with h | h <;> simp [h])]
    refine ⟨rfl, ?_, ?_⟩
    · exact alGet_alSet_self _ _ _
    · intro q hq
      rw [alGet_foldl_sadd_mem]
      exact Or.inr ⟨rfl, hq⟩

/-- A single logged-out agent, for the C8 witness. -/
def loggedOutStore : Store :=
  { emptyStore with
    agents := [("agentA", ⟨"A", "PJSIP/a", "24/7", "LOGGED_OUT", []⟩)] }

/-- Witness for C8 at a concrete input: a forced login of a logged-out
agent into two queues succeeds with the claimed effects. -/
theorem c8_witness :
    (agentLogin "cc1" "agentA" ["Q1", "Q2"] true monTen loggedOutStore).fst = .ok () ∧
    alGet "agentA"
      ((agentLogin "cc1" "agentA" ["Q1", "Q2"] true monTen loggedOutStore).snd).agents =
      some { name := "A", endpoint := "PJSIP/a", shiftTimings := "24/7",
             status := "AVAILABLE", loggedInQueues := ["Q1", "Q2"] } ∧
    ∀ q ∈ ["Q1", "Q2"], "agentA" ∈
      ((alGet q ((agentLogin "cc1" "agentA" ["Q1", "Q2"] true monTen
        loggedOutStore).snd).loggedIn).getD []) :=
  (c8_agentLogin_contract "cc1" "agentA" ["Q1", "Q2"] true monTen loggedOutStore
    (by decide) (by decide)).2.2.2
    ⟨"A", "PJSIP/a", "24/7", "LOGGED_OUT", []⟩ rfl rfl (Or.inl rfl)

/-! ## Sorting and eligibility lemmas (for C2 and C4) -/

theorem insertSorted_perm (a : String) (l : List String) :
    (insertSorted a l).Perm (a :: l) := by
  induction l with
  | nil => exact List.Perm.refl _
  | cons b rest ih =>
    unfold insertSorted
    by_cases h : strLe a b = true
    · rw [if_pos h]
    · rw [if_neg h]
      exact ((ih.cons b).trans (List.Perm.swap a b rest))

theorem sortStrings_perm (l : List String) : (sortStrings l).Perm l := by
  induction l with
  | nil => exact List.Perm.refl _
  | cons a rest ih =>
    show (insertSorted a (sortStrings rest)).Perm (a :: rest)
    exact (insertSorted_perm a (sortStrings rest)).trans (ih.cons a)

theorem mem_sortStrings {l : List String} {x : String} :
    x ∈ sortStrings l ↔ x ∈ l :=
  (sortStrings_perm l).mem_iff

theorem sortStrings_nodup {l : List String} (h : l.Nodup) :
    (sortStrings l).Nodup :=
  ((sortStrings_perm l).nodup_iff).mpr h

theorem sortStrings_length (l : List String) :
    (sortStrings l).length = l.length :=
  (sortStrings_perm l).length_eq

theorem getAgentDetails_ok_inv {callCenterId agentId : String} {st : Store}
    {a : AgentRecord} (h : getAgentDetails callCenterId agentId st = .ok a) :
    ¬callCenterId.data.isEmpty = true ∧ ¬agentId.data.isEmpty = true ∧
      alGet agentId st.agents = some a := by
  unfold getAgentDetails at h
  by_cases harg : (callCenterId.data.isEmpty || agentId.data.isEmpty) = true
  · rw [if_pos harg] at h
    exact absurd h (by simp)
  · rw [if_neg harg] at h
    simp only [Bool.or_eq_true, not_or] at harg
    cases hga : alGet agentId st.agents with
    | none => rw [hga] at h; exact absurd h (by simp)
    | some a2 =>
      rw [hga] at h
      have h2 : a2 = a := by simpa using h
      subst h2
      exact ⟨harg.1, harg.2, rfl⟩

/-- What membership in the eligible list implies: membership in the
logged-in set, a nonempty id, and an `AVAILABLE`, on-shift agent record. -/
theorem eligibleAgents_mem {callCenterId : String} {loggedInAgents : List String}
    {now : JsDate} {st : Store} {x : String}
    (hx : x ∈ eligibleAgents callCenterId loggedInAgents now st) :
    x ∈ loggedInAgents ∧ ¬x.data.isEmpty = true ∧
      ∃ a, alGet x st.agents = some a ∧ a.status = "AVAILABLE" ∧
        parseTimings a.shiftTimings now = true := by
  unfold eligibleAgents at hx
  obtain ⟨hmem, hpred⟩ := List.mem_filter.mp hx
  refine ⟨hmem, ?_⟩
  cases hga : getAgentDetails callCenterId x st with
  | error e => rw [hga] at hpred; simp at hpred
  | ok a =>
    rw [hga] at hpred
    obtain ⟨hcc, hxne, hal⟩ := getAgentDetails_ok_inv hga
    rw [isAgentOnShift_eq_ok now hcc hxne hal] at hpred
    dsimp only at hpred
    simp only [Bool.and_eq_true, beq_iff_eq] at hpred
    exact ⟨hxne, a, hal, hpred.1, hpred.2⟩

theorem eligibleAgents_nodup {callCenterId : String} {loggedInAgents : List String}
    {now : JsDate} {st : Store} (h : loggedInAgents.Nodup) :
    (eligibleAgents callCenterId loggedInAgents now st).Nodup :=
  h.filter _

theorem rrSelect_mem {sorted : List String} (pointer : Option String)
    (h : sorted ≠ []) : rrSelect sorted pointer ∈ sorted := by
  have hk : 0 < sorted.length := List.length_pos.mpr h
  unfold rrSelect
  cases pointer with
  | none =>
    rw [List.getD_eq_getElem _ _ hk]
    exact List.getElem_mem _
  | some la =>
    dsimp only
    by_cases hc : (!la.data.isEmpty && sorted.contains la) = true
    · rw [if_pos hc]
      have hm : (sorted.indexOf la + 1) % sorted.length < sorted.length :=
        Nat.mod_lt _ hk
      rw [List.getD_eq_getElem _ _ hm]
      exact List.getElem_mem _
    · rw [if_neg hc]
      rw [List.getD_eq_getElem _ _ hk]
      exact List.getElem_mem _

/-- The selector's truthiness-guarded pointer logic, written with the
claims' member-of-eligible-list condition: the two agree whenever every
eligible id is a nonempty string (which `eligibleAgents` guarantees). -/
theorem rrSelect_eq_claim {sorted : List String} (pointer : Option String)
    (hne : ∀ x ∈ sorted, ¬x.data.isEmpty = true) :
    rrSelect sorted pointer =
      (match pointer with
       | some la =>
         if la ∈ sorted then
           sorted.getD ((sorted.indexOf la + 1) % sorted.length) ""
         else sorted.getD 0 ""
       | none => sorted.getD 0 "") := by
  cases pointer with
  | none => rfl
  | some la =>
    unfold rrSelect
    dsimp only
    by_cases hm : la ∈ sorted
    · have h1 : sorted.elem la = true := List.elem_iff.mpr hm
      have h2 : la.data.isEmpty = false := by
        cases hb : la.data.isEmpty with
        | false => rfl
        | true => exact absurd hb (hne la hm)
      have hc : (!la.data.isEmpty && sorted.contains la) = true := by
        show (!la.data.isEmpty && sorted.elem la) = true
        rw [h1, h2]
        rfl
      rw [if_pos hc]
      simp [hm]
    · have hc : (!la.data.isEmpty && sorted.contains la) = false := by
        have h1 : sorted.elem la = false := by
          cases hb : sorted.elem la with
          | false => rfl
          | true => exact absurd (List.elem_iff.mp hb) hm
        show (!la.data.isEmpty && sorted.elem la) = false
        rw [h1]
        simp
      rw [if_neg (by rw [hc]; simp)]
      simp [hm]

/-- The selector's normal form when the eligible list is nonempty: it
selects `rrSelect` of the sorted eligible list and the stored pointer,
writes it back, and leaves everything else as is. -/
theorem findAgent_of_eligible_ne_nil
    {callCenterId queueId : String} {now : JsDate} {st : Store}
    (hcc : ¬callCenterId.data.isEmpty = true) (hq : ¬queueId.data.isEmpty = true)
    (hne : eligibleAgents callCenterId ((alGet queueId st.loggedIn).getD []) now st ≠
      []) :
    findAgentForCall_RoundRobin callCenterId queueId now st =
      (.ok (some (rrSelect
          (sortStrings (eligibleAgents callCenterId
            ((alGet queueId st.loggedIn).getD []) now st))
          (alGet queueId st.lastAgentRR))),
       { st with lastAgentRR :=
          (alSet queueId
            (rrSelect
              (sortStrings (eligibleAgents callCenterId
                ((alGet queueId st.loggedIn).getD []) now st))
              (alGet queueId st.lastAgentRR))
            st.lastAgentRR) }) := by
  have hLne : ¬((alGet queueId st.loggedIn).getD []).isEmpty = true := by
    rcases List.exists_mem_of_ne_nil _ hne with ⟨x, hx⟩
    have := (eligibleAgents_mem hx).1
    simp only [List.isEmpty_iff]
    intro hempty
    rw [hempty] at this
    exact absurd this (List.not_mem_nil x)
  have hSne : sortStrings (eligibleAgents callCenterId
      ((alGet queueId st.loggedIn).getD []) now st) ≠ [] := by
    intro hempty
    apply hne
    have := sortStrings_length (eligibleAgents callCenterId
      ((alGet queueId st.loggedIn).getD []) now st)
    rw [hempty] at this
    exact List.length_eq_zero.mp this.symm
  have hsel := rrSelect_mem (alGet queueId st.lastAgentRR) hSne
  have hselne : ¬(rrSelect
      (sortStrings (eligibleAgents callCenterId
        ((alGet queueId st.loggedIn).getD []) now st))
      (alGet queueId st.lastAgentRR)).data.isEmpty = true := by
    have hmem := mem_sortStrings.mp hsel
    exact (eligibleAgents_mem hmem).2.1
  unfold findAgentForCall_RoundRobin
  rw [if_neg (by simp [hcc, hq]), if_neg hLne,
    if_neg (by simpa [List.isEmpty_iff] using hne), if_neg hselne]

/-! ## C2 -/

/-- C2: with a nonempty eligible list the selector returns the element at
`(index_of(pointer) + 1) mod length` of the lexicographically sorted
eligible ids when the stored pointer names a member of that list, the
first element otherwise, and writes the selection back as the new
pointer; with an empty eligible list it selects nobody. -/
theorem c2_round_robin_formula
    (callCenterId queueId : String) (now : JsDate) (st : Store)
    (hcc : ¬callCenterId.data.isEmpty = true) (hq : ¬queueId.data.isEmpty = true) :
    (eligibleAgents callCenterId ((alGet queueId st.loggedIn).getD []) now st = [] →
      (findAgentForCall_RoundRobin callCenterId queueId now st).fst = .ok none) ∧
    (eligibleAgents callCenterId ((alGet queueId st.loggedIn).getD []) now st ≠ [] →
      ((findAgentForCall_RoundRobin callCenterId queueId now st).fst =
        .ok (some (match alGet queueId st.lastAgentRR with
          | some la =>
            if la ∈ sortStrings (eligibleAgents callCenterId
                ((alGet queueId st.loggedIn).getD []) now st) then
              (sortStrings (eligibleAgents callCenterId
                ((alGet queueId st.loggedIn).getD []) now st)).getD
                (((sortStrings (eligibleAgents callCenterId
                  ((alGet queueId st.loggedIn).getD []) now st)).indexOf la + 1) %
                 (sortStrings (eligibleAgents callCenterId
                   ((alGet queueId st.loggedIn).getD []) now st)).length) ""
            else (sortStrings (eligibleAgents callCenterId
              ((alGet queueId st.loggedIn).getD []) now st)).getD 0 ""
          | none => (sortStrings (eligibleAgents callCenterId
              ((alGet queueId st.loggedIn).getD []) now st)).getD 0 "")) ∧
       alGet queueId
         ((findAgentForCall_RoundRobin callCenterId queueId now st).snd).lastAgentRR =
         (findAgentForCall_RoundRobin callCenterId queueId now st).fst.toOption.join)) := by
  constructor
  · intro hempty
    unfold findAgentForCall_RoundRobin
    rw [if_neg (by simp [hcc, hq])]
    by_cases hL : ((alGet queueId st.loggedIn).getD []).isEmpty = true
    · rw [if_pos hL]
    · rw [if_neg hL, if_pos (by simp [hempty])]
  · intro hne
    have hclaim : rrSelect
        (sortStrings (eligibleAgents callCenterId
          ((alGet queueId st.loggedIn).getD []) now st))
        (alGet queueId st.lastAgentRR) =
        (match alGet queueId st.lastAgentRR with
         | some la =>
           if la ∈ sortStrings (eligibleAgents callCenterId
               ((alGet queueId st.loggedIn).getD []) now st) then
             (sortStrings (eligibleAgents callCenterId
               ((alGet queueId st.loggedIn).getD []) now st)).getD
               (((sortStrings (eligibleAgents callCenterId
                 ((alGet queueId st.loggedIn).getD []) now st)).indexOf la + 1) %
                (sortStrings (eligibleAgents callCenterId
                  ((alGet queueId st.loggedIn).getD []) now st)).length) ""
           else (sortStrings (eligibleAgents callCenterId
             ((alGet queueId st.loggedIn).getD []) now st)).getD 0 ""
         | none => (sortStrings (eligibleAgents callCenterId
             ((alGet queueId st.loggedIn).getD []) now st)).getD 0 "") :=
      rrSelect_eq_claim (alGet queueId st.lastAgentRR)
        (fun x hx => (eligibleAgents_mem (mem_sortStrings.mp hx)).2.1)
    rw [findAgent_of_eligible_ne_nil hcc hq hne]
    refine ⟨by rw [hclaim], ?_⟩
    dsimp only
    rw [alGet_alSet_self]
    rfl

/-- Witness for C2 at a concrete input: three eligible agents listed out
of order, pointer at `agentA`; the selection is `agentB` (one past the
pointer in sorted order) and the pointer is rewritten to it. -/
theorem c2_witness :
    eligibleAgents "cc1" ((alGet "Q1" { threeAgentStore with
        lastAgentRR := [("Q1", "agentA")] }.loggedIn).getD []) monTen
      { threeAgentStore with lastAgentRR := [("Q1", "agentA")] } ≠ [] ∧
    (findAgentForCall_RoundRobin "cc1" "Q1" monTen
      { threeAgentStore with lastAgentRR := [("Q1", "agentA")] }).fst =
      .ok (some "agentB") :=
  ⟨by decide,
   by
    have h := (c2_round_robin_formula "cc1" "Q1" monTen
      { threeAgentStore with lastAgentRR := [("Q1", "agentA")] }
      (by decide) (by decide)).2 (by decide)
    rw [h.1]
    rfl⟩

/-! ## C3 -/

theorem contains_iff_mem {l : List String} {x : String} :
    l.contains x = true ↔ x ∈ l := by
  show l.elem x = true ↔ x ∈ l
  exact List.elem_iff

theorem contains_eq_false_of_not_mem {l : List String} {x : String} (h : x ∉ l) :
    l.contains x = false := by
  cases hb : l.contains x with
  | false => rfl
  | true => exact absurd (contains_iff_mem.mp hb) h

theorem adminInv_empty : AdminInv emptyStore := by
  refine ⟨List.nodup_nil, List.nodup_nil, ?_, ?_, ?_, ?_⟩ <;>
    intro x a h <;> simp [alGet, emptyStore] at h

/-- `addAgent` of a fresh agent id preserves the invariant. -/
theorem addAgent_inv {callCenterId agentId name endpoint shiftTimings : String}
    {st st2 : Store} {u : Unit}
    (hInv : AdminInv st) (hfresh : alGet agentId st.agents = none)
    (h : addAgent callCenterId agentId name endpoint shiftTimings st = (.ok u, st2)) :
    AdminInv st2 := by
  unfold addAgent at h
  by_cases harg : (callCenterId.data.isEmpty || agentId.data.isEmpty ||
      name.data.isEmpty || endpoint.data.isEmpty) = true
  · rw [if_pos harg] at h
    exact absurd (congrArg Prod.fst h) (by simp)
  rw [if_neg harg] at h
  obtain ⟨-, hst2⟩ := Prod.mk.injEq .. ▸ h
  have hst2 : st2 = { st with
      agents := alSet agentId
        ⟨name, endpoint, shiftTimings, "LOGGED_OUT", []⟩ st.agents,
      agentsMaster := saddElem st.agentsMaster agentId } := by
    exact (congrArg Prod.snd h).symm
  subst hst2
  refine ⟨alSet_keys_nodup _ _ hInv.agentsKeys, hInv.loggedKeys, ?_, ?_, ?_, ?_⟩
  · intro x a hx
    by_cases hxa : x = agentId
    · subst hxa
      rw [alGet_alSet_self] at hx
      obtain rfl : (⟨name, endpoint, shiftTimings, "LOGGED_OUT", []⟩ : AgentRecord) =
        a := by simpa using hx
      exact Or.inl rfl
    · rw [alGet_alSet_ne hxa] at hx
      exact hInv.statusOK x a hx
  · intro x a hx hLO
    by_cases hxa : x = agentId
    · subst hxa
      rw [alGet_alSet_self] at hx
      obtain rfl : (⟨name, endpoint, shiftTimings, "LOGGED_OUT", []⟩ : AgentRecord) =
        a := by simpa using hx
      refine ⟨rfl, fun q hq => ?_⟩
      obtain ⟨a2, ha2⟩ := hInv.memberKnown q x hq
      rw [hfresh] at ha2
      exact Option.noConfusion ha2
    · rw [alGet_alSet_ne hxa] at hx
      exact hInv.loggedOutClean x a hx hLO
  · intro x a hx hAV
    by_cases hxa : x = agentId
    · subst hxa
      rw [alGet_alSet_self] at hx
      obtain rfl : (⟨name, endpoint, shiftTimings, "LOGGED_OUT", []⟩ : AgentRecord) =
        a := by simpa using hx
      simp at hAV
    · rw [alGet_alSet_ne hxa] at hx
      exact hInv.availSets x a hx hAV
  · intro q x hq
    obtain ⟨a2, ha2⟩ := hInv.memberKnown q x hq
    by_cases hxa : x = agentId
    · subst hxa
      exact ⟨_, alGet_alSet_self _ _ _⟩
    · rw [← alGet_alSet_ne hxa
        (⟨name, endpoint, shiftTimings, "LOGGED_OUT", []⟩ : AgentRecord)
        st.agents] at ha2
      exact ⟨a2, ha2⟩

/-- A successful `agentLogin` preserves the invariant. -/
theorem agentLogin_inv {callCenterId agentId : String} {queueIds : List String}
    {forceLogin : Bool} {now : JsDate} {st st2 : Store} {u : Unit}
    (hInv : AdminInv st)
    (h : agentLogin callCenterId agentId queueIds forceLogin now st = (.ok u, st2)) :
    AdminInv st2 := by
  unfold agentLogin at h
  by_cases harg : (callCenterId.data.isEmpty || agentId.data.isEmpty) = true
  · rw [if_pos harg] at h
    exact absurd (congrArg Prod.fst h) (by simp)
  rw [if_neg harg] at h
  cases hga : getAgentDetails callCenterId agentId st with
  | error e =>
    rw [hga] at h
    exact absurd (congrArg Prod.fst h) (by simp)
  | ok a =>
    rw [hga] at h
    dsimp only at h
    obtain ⟨hcc, hid, hal⟩ := getAgentDetails_ok_inv hga
    by_cases hbne : (a.status != "LOGGED_OUT") = true
    · rw [if_pos hbne] at h
      exact absurd (congrArg Prod.fst h) (by simp)
    rw [if_neg hbne] at h
    have hLO : a.status = "LOGGED_OUT" := by simpa [bne_iff_ne] using hbne
    by_cases hshift : (!shiftCheckPasses callCenterId agentId forceLogin now st) = true
    · rw [if_pos hshift] at h
      exact absurd (congrArg Prod.fst h) (by simp)
    rw [if_neg hshift] at h
    have hst2 : st2 = { st with
        agents := alSet agentId
          { a with status := "AVAILABLE", loggedInQueues := queueIds } st.agents,
        loggedIn := queueIds.foldl
          (fun acc q => alSet q (saddElem ((alGet q acc).getD []) agentId) acc)
          st.loggedIn } :=
      (congrArg Prod.snd h).symm
    subst hst2
    obtain ⟨hlq, hnoset⟩ := hInv.loggedOutClean agentId a hal hLO
    refine ⟨alSet_keys_nodup _ _ hInv.agentsKeys,
      foldl_update_keys_nodup _ _ _ hInv.loggedKeys, ?_, ?_, ?_, ?_⟩
    · intro x a2 hx
      by_cases hxa : x = agentId
      · subst hxa
        rw [alGet_alSet_self] at hx
        obtain rfl : { a with status := "AVAILABLE", loggedInQueues := queueIds } =
          a2 := by simpa using hx
        exact Or.inr rfl
      · rw [alGet_alSet_ne hxa] at hx
        exact hInv.statusOK x a2 hx
    · intro x a2 hx hLO2
      by_cases hxa : x = agentId
      · subst hxa
        rw [alGet_alSet_self] at hx
        obtain rfl : { a with status := "AVAILABLE", loggedInQueues := queueIds } =
          a2 := by simpa using hx
        simp at hLO2
      · rw [alGet_alSet_ne hxa] at hx
        obtain ⟨h1, h2⟩ := hInv.loggedOutClean x a2 hx hLO2
        refine ⟨h1, fun q => ?_⟩
        rw [alGet_foldl_sadd_mem]
        rintro (hm | ⟨hxe, -⟩)
        · exact h2 q hm
        · exact hxa hxe
    · intro x a2 hx hAV
      by_cases hxa : x = agentId
      · subst hxa
        rw [alGet_alSet_self] at hx
        obtain rfl : { a with status := "AVAILABLE", loggedInQueues := queueIds } =
          a2 := by simpa using hx
        intro q
        rw [alGet_foldl_sadd_mem]
        constructor
        · rintro (hm | ⟨-, hq⟩)
          · exact absurd hm (hnoset q)
          · exact hq
        · intro hq
          exact Or.inr ⟨rfl, hq⟩
      · rw [alGet_alSet_ne hxa] at hx
        intro q
        rw [alGet_foldl_sadd_mem]
        rw [hInv.availSets x a2 hx hAV q]
        constructor
        · rintro (hq | ⟨hxe, -⟩)
          · exact hq
          · exact absurd hxe hxa
        · exact Or.inl
    · intro q x hq
      rw [alGet_foldl_sadd_mem] at hq
      by_cases hxa : x = agentId
      · subst hxa
        exact ⟨_, alGet_alSet_self _ _ _⟩
      · rcases hq with hm | ⟨hxe, -⟩
        · obtain ⟨a2, ha2⟩ := hInv.memberKnown q x hm
          rw [← alGet_alSet_ne hxa
            ({ a with status := "AVAILABLE", loggedInQueues := queueIds }) st.agents]
            at ha2
          exact ⟨a2, ha2⟩
        · exact absurd hxe hxa

/-- A successful `agentLogout` preserves the invariant. -/
theorem agentLogout_inv {callCenterId agentId : String} {st st2 : Store} {u : Unit}
    (hInv : AdminInv st)
    (h : agentLogout callCenterId agentId st = (.ok u, st2)) :
    AdminInv st2 := by
  unfold agentLogout at h
  by_cases harg : (callCenterId.data.isEmpty || agentId.data.isEmpty) = true
  · rw [if_pos harg] at h
    exact absurd (congrArg Prod.fst h) (by simp)
  rw [if_neg harg] at h
  cases hal : alGet agentId st.agents with
  | none =>
    rw [hal] at h
    exact absurd (congrArg Prod.fst h) (by simp)
  | some a =>
    rw [hal] at h
    dsimp only at h
    by_cases hbeq : (a.status == "LOGGED_OUT") = true
    · rw [if_pos hbeq] at h
      exact absurd (congrArg Prod.fst h) (by simp)
    rw [if_neg hbeq] at h
    have hAV : a.status = "AVAILABLE" := by
      rcases hInv.statusOK agentId a hal with hLO | hAV
      · exact absurd (beq_iff_eq.mpr hLO) hbeq
      · exact hAV
    have hst2 : st2 = { st with
        agents := alSet agentId
          { a with status := "LOGGED_OUT", loggedInQueues := [] } st.agents,
        loggedIn := a.loggedInQueues.foldl
          (fun acc q => alSet q (sremElem ((alGet q acc).getD []) agentId) acc)
          st.loggedIn } :=
      (congrArg Prod.snd h).symm
    subst hst2
    have hsets := hInv.availSets agentId a hal hAV
    refine ⟨alSet_keys_nodup _ _ hInv.agentsKeys,
      foldl_update_keys_nodup _ _ _ hInv.loggedKeys, ?_, ?_, ?_, ?_⟩
    · intro x a2 hx
      by_cases hxa : x = agentId
      · subst hxa
        rw [alGet_alSet_self] at hx
        obtain rfl : { a with status := "LOGGED_OUT", loggedInQueues := [] } =
          a2 := by simpa using hx
        exact Or.inl rfl
      · rw [alGet_alSet_ne hxa] at hx
        exact hInv.statusOK x a2 hx
    · intro x a2 hx hLO2
      by_cases hxa : x = agentId
      · subst hxa
        rw [alGet_alSet_self] at hx
        obtain rfl : { a with status := "LOGGED_OUT", loggedInQueues := [] } =
          a2 := by simpa using hx
        refine ⟨rfl, fun q => ?_⟩
        rw [alGet_foldl_srem_mem]
        rintro ⟨hm, hno⟩
        exact hno ⟨rfl, (hsets q).mp hm⟩
      · rw [alGet_alSet_ne hxa] at hx
        obtain ⟨h1, h2⟩ := hInv.loggedOutClean x a2 hx hLO2
        refine ⟨h1, fun q => ?_⟩
        rw [alGet_foldl_srem_mem]
        rintro ⟨hm, -⟩
        exact h2 q hm
    · intro x a2 hx hAV2
      by_cases hxa : x = agentId
      · subst hxa
        rw [alGet_alSet_self] at hx
        obtain rfl : { a with status := "LOGGED_OUT", loggedInQueues := [] } =
          a2 := by simpa using hx
        simp at hAV2
      · rw [alGet_alSet_ne hxa] at hx
        intro q
        rw [alGet_foldl_srem_mem]
        rw [hInv.availSets x a2 hx hAV2 q]
        constructor
        · rintro ⟨hq, -⟩
          exact hq
        · intro hq
          exact ⟨hq, fun hc => hxa hc.1⟩
    · intro q x hq
      rw [alGet_foldl_srem_mem] at hq
      by_cases hxa : x = agentId
      · subst hxa
        exact ⟨_, alGet_alSet_self _ _ _⟩
      · obtain ⟨a2, ha2⟩ := hInv.memberKnown q x hq.1
        rw [← alGet_alSet_ne hxa
          ({ a with status := "LOGGED_OUT", loggedInQueues := [] }) st.agents] at ha2
        exact ⟨a2, ha2⟩

/-- Running a fresh-add admin sequence from an invariant state keeps the
invariant. -/
theorem runAdminOpsFresh_inv (callCenterId : String) (ops : List AdminOp) :
    ∀ st st2 : Store, AdminInv st →
      runAdminOpsFresh callCenterId ops st = some st2 → AdminInv st2 := by
  induction ops with
  | nil =>
    intro st st2 hInv h
    obtain rfl : st = st2 := by simpa [runAdminOpsFresh] using h
    exact hInv
  | cons op ops ih =>
    intro st st2 hInv h
    unfold runAdminOpsFresh at h
    by_cases hfresh : freshFor op st = true
    · rw [if_pos hfresh] at h
      cases happ : applyAdminOp callCenterId op st with
      | mk r stMid =>
        rw [happ] at h
        cases r with
        | error e => simp at h
        | ok u =>
          dsimp only at h
          refine ih stMid st2 ?_ h
          cases op with
          | add agentId name endpoint shiftTimings =>
            have hf : alGet agentId st.agents = none := by
              have hf2 : (alGet agentId st.agents).isNone = true := hfresh
              simpa [Option.isNone_iff_eq_none] using hf2
            exact addAgent_inv hInv hf happ
          | login agentId queueIds forceLogin now => exact agentLogin_inv hInv happ
          | logout agentId => exact agentLogout_inv hInv happ
    · rw [if_neg hfresh] at h
      exact Option.noConfusion h

/-- The invariant implies the claim's decidable membership consistency. -/
theorem agentQueueConsistent_of_inv {st : Store} (hInv : AdminInv st) :
    agentQueueConsistent st = true := by
  unfold agentQueueConsistent
  rw [List.all_eq_true]
  rintro ⟨aid, a⟩ hp
  have hget : alGet aid st.agents = some a := alGet_of_mem_nodup hInv.agentsKeys hp
  rw [Bool.and_eq_true]
  constructor
  · by_cases hLO : a.status = "LOGGED_OUT"
    · rw [if_pos (by simpa using hLO)]
      obtain ⟨h1, h2⟩ := hInv.loggedOutClean aid a hget hLO
      rw [Bool.and_eq_true]
      constructor
      · simp [h1]
      · rw [List.all_eq_true]
        rintro ⟨q, members⟩ hql
        have hqget : alGet q st.loggedIn = some members :=
          alGet_of_mem_nodup hInv.loggedKeys hql
        have : aid ∉ members := by
          have := h2 q
          rw [hqget] at this
          simpa using this
        simp
        exact this
    · rw [if_neg (by simpa using hLO)]
  · by_cases hAV : a.status = "AVAILABLE"
    · rw [if_pos (by simpa using hAV)]
      have hsets := hInv.availSets aid a hget hAV
      rw [Bool.and_eq_true]
      constructor
      · rw [List.all_eq_true]
        intro q hq
        exact contains_iff_mem.mpr ((hsets q).mpr hq)
      · rw [List.all_eq_true]
        rintro ⟨q, members⟩ hql
        have hqget : alGet q st.loggedIn = some members :=
          alGet_of_mem_nodup hInv.loggedKeys hql
        by_cases hm : aid ∈ members
        · have : q ∈ a.loggedInQueues := by
            apply (hsets q).mp
            rw [hqget]
            simpa using hm
          simp
          exact Or.inr this
        · simp
          exact Or.inl hm
    · rw [if_neg (by simpa using hAV)]

/-- Counterexample to C3 as stated: the three operations of
`overwriteOps` each succeed (`runAdminOps` returns `some`), yet the final
store violates the membership consistency — `addAgent` of an existing,
logged-in agent resets the hash to `LOGGED_OUT`/no queues while the
queue's logged-in set still contains the agent. -/
theorem c3_counterexample :
    (runAdminOps "cc1" overwriteOps emptyStore).map agentQueueConsistent =
      some false := by
  decide

/-- C3 as amended: after any sequence of `addAgent` (applied only to
agent ids with no existing record), `agentLogin` and `agentLogout` in
which every operation succeeds, every `LOGGED_OUT` agent lists no queues
and sits in no queue's logged-in set, and every `AVAILABLE` agent sits in
the logged-in set of exactly the queues of its `loggedInQueues`. -/
theorem c3_membership_invariant (callCenterId : String) (ops : List AdminOp)
    (st2 : Store) (h : runAdminOpsFresh callCenterId ops emptyStore = some st2) :
    agentQueueConsistent st2 = true :=
  agentQueueConsistent_of_inv
    (runAdminOpsFresh_inv callCenterId ops emptyStore st2 adminInv_empty h)

/-- Witness for C3's amended theorem at a concrete input: the five
operations of `goodOps` run successfully and the final store satisfies
the membership consistency. -/
theorem c3_witness :
    (runAdminOpsFresh "cc1" goodOps emptyStore).map agentQueueConsistent =
      some true := by
  cases hrun : runAdminOpsFresh "cc1" goodOps emptyStore with
  | none => exact absurd hrun (by decide)
  | some st2 =>
    show some (agentQueueConsistent st2) = some true
    rw [c3_membership_invariant "cc1" goodOps st2 hrun]

/-! ## C4 -/

theorem sortStrings_ne_nil {l : List String} (h : l ≠ []) : sortStrings l ≠ [] := by
  intro he
  apply h
  have hlen := sortStrings_length l
  rw [he] at hlen
  exact List.length_eq_zero.mp hlen.symm

theorem nextRRIndex_lt {sorted : List String} (ptr : Option String)
    (hk : 0 < sorted.length) : nextRRIndex sorted ptr < sorted.length := by
  unfold nextRRIndex
  cases ptr with
  | none => exact hk
  | some la =>
    dsimp only
    by_cases hc : (!la.data.isEmpty && sorted.contains la) = true
    · rw [if_pos hc]
      exact Nat.mod_lt _ hk
    · rw [if_neg hc]
      exact hk

theorem rrSelect_eq_getD (sorted : List String) (ptr : Option String) :
    rrSelect sorted ptr = sorted.getD (nextRRIndex sorted ptr) "" := by
  unfold rrSelect nextRRIndex
  cases ptr with
  | none => rfl
  | some la =>
    dsimp only
    by_cases hc : (!la.data.isEmpty && sorted.contains la) = true
    · rw [if_pos hc, if_pos hc]
    · rw [if_neg hc, if_neg hc]

/-- After a selection the pointer names the selected element, so the
following selection advances by one position (wrapping). -/
theorem nextRRIndex_of_selected {sorted : List String} (hnd : sorted.Nodup)
    (hne : sorted ≠ []) (ptr : Option String)
    (hnonempty : ∀ x ∈ sorted, ¬x.data.isEmpty = true) :
    nextRRIndex sorted (some (rrSelect sorted ptr)) =
      (nextRRIndex sorted ptr + 1) % sorted.length := by
  have hk : 0 < sorted.length := List.length_pos.mpr hne
  have hi0 : nextRRIndex sorted ptr < sorted.length := nextRRIndex_lt ptr hk
  have hmem : rrSelect sorted ptr ∈ sorted := rrSelect_mem ptr hne
  have hnem := hnonempty _ hmem
  have hidx : List.indexOf (rrSelect sorted ptr) sorted = nextRRIndex sorted ptr := by
    rw [rrSelect_eq_getD sorted ptr, List.getD_eq_getElem _ _ hi0]
    exact List.indexOf_getElem hnd _ hi0
  have hc : (!(rrSelect sorted ptr).data.isEmpty &&
      sorted.contains (rrSelect sorted ptr)) = true := by
    have h1 : (rrSelect sorted ptr).data.isEmpty = false := by
      cases hb : (rrSelect sorted ptr).data.isEmpty with
      | false => rfl
      | true => exact absurd hb hnem
    rw [h1, contains_iff_mem.mpr hmem]
    rfl
  show (if (!(rrSelect sorted ptr).data.isEmpty &&
      sorted.contains (rrSelect sorted ptr)) = true then
      (List.indexOf (rrSelect sorted ptr) sorted + 1) % sorted.length
    else 0) = (nextRRIndex sorted ptr + 1) % sorted.length
  rw [if_pos hc, hidx]

/-- `eligibleAgents` and the logged-in set do not depend on the
round-robin pointer key. -/
theorem eligibleAgents_update_rr (callCenterId queueId : String) (now : JsDate)
    (st : Store) (X : List (String × String)) :
    eligibleAgents callCenterId
        ((alGet queueId ({ st with lastAgentRR := X }).loggedIn).getD []) now
        { st with lastAgentRR := X } =
      eligibleAgents callCenterId ((alGet queueId st.loggedIn).getD []) now st := rfl

/-- One full cycle of the round-robin sequence is a rotation of the
sorted eligible list. -/
theorem rrSeq_cycle (sorted : List String) (m : Nat) (hk : 0 < sorted.length) :
    (List.range sorted.length).map
        (fun t => sorted.getD ((m + t) % sorted.length) "") =
      sorted.rotate (m % sorted.length) := by
  apply List.ext_getElem
  · simp
  · intro t h1 h2
    rw [List.getElem_map, List.getElem_range, List.getElem_rotate]
    have hidx : (m + t) % sorted.length =
        (t + m % sorted.length) % sorted.length := by
      rw [Nat.add_comm t (m % sorted.length), Nat.mod_add_mod]
    rw [hidx, List.getD_eq_getElem _ _ (Nat.mod_lt _ hk)]

theorem rrSeq_cycle_count {sorted : List String} (hnd : sorted.Nodup) {a : String}
    (ha : a ∈ sorted) (m : Nat) (hk : 0 < sorted.length) :
    List.count a ((List.range sorted.length).map
      (fun t => sorted.getD ((m + t) % sorted.length) "")) = 1 := by
  rw [rrSeq_cycle sorted m hk]
  rw [(List.rotate_perm sorted (m % sorted.length)).count_eq]
  exact List.count_eq_one_of_mem hnd ha

theorem rrSeq_count_add_cycle {sorted : List String} (hnd : sorted.Nodup)
    {a : String} (ha : a ∈ sorted) (i0 m : Nat) (hk : 0 < sorted.length) :
    List.count a ((List.range (m + sorted.length)).map
        (fun t => sorted.getD ((i0 + t) % sorted.length) "")) =
      List.count a ((List.range m).map
        (fun t => sorted.getD ((i0 + t) % sorted.length) "")) + 1 := by
  rw [List.range_add, List.map_append, List.count_append]
  congr 1
  rw [List.map_map]
  have hfun : ((fun t => sorted.getD ((i0 + t) % sorted.length) "") ∘
      fun x => m + x) =
      fun t => sorted.getD (((i0 + m) + t) % sorted.length) "" := by
    funext t
    simp [Function.comp, Nat.add_assoc, Nat.add_left_comm]
  rw [hfun]
  exact rrSeq_cycle_count hnd ha (i0 + m) hk

theorem rrSeq_count_cycles {sorted : List String} (hnd : sorted.Nodup)
    {a : String} (ha : a ∈ sorted) (i0 : Nat) (hk : 0 < sorted.length)
    (s : Nat) : ∀ j : Nat,
    List.count a ((List.range (s + j * sorted.length)).map
        (fun t => sorted.getD ((i0 + t) % sorted.length) "")) =
      List.count a ((List.range s).map
        (fun t => sorted.getD ((i0 + t) % sorted.length) "")) + j := by
  intro j
  induction j with
  | zero => simp
  | succ j ih =>
    have hsplit : s + (j + 1) * sorted.length =
        (s + j * sorted.length) + sorted.length := by ring
    rw [hsplit, rrSeq_count_add_cycle hnd ha i0 _ hk, ih]
    omega

theorem rrSeq_count_prefix_le {sorted : List String} (hnd : sorted.Nodup)
    {a : String} (ha : a ∈ sorted) (i0 s : Nat) (hs : s ≤ sorted.length)
    (hk : 0 < sorted.length) :
    List.count a ((List.range s).map
      (fun t => sorted.getD ((i0 + t) % sorted.length) "")) ≤ 1 := by
  have htake : (List.range s).map
      (fun t => sorted.getD ((i0 + t) % sorted.length) "") =
      ((List.range sorted.length).map
        (fun t => sorted.getD ((i0 + t) % sorted.length) "")).take s := by
    rw [← List.map_take, List.take_range, min_eq_left hs]
  rw [htake]
  have hc := rrSeq_cycle_count hnd ha i0 hk
  calc List.count a (((List.range sorted.length).map
        (fun t => sorted.getD ((i0 + t) % sorted.length) "")).take s) ≤
      List.count a ((List.range sorted.length).map
        (fun t => sorted.getD ((i0 + t) % sorted.length) "")) :=
        (List.take_sublist _ _).count_le a
    _ = 1 := hc

/-- The ceiling division identity used to phrase the fairness bound. -/
theorem ceil_div_of_mod_pos {k n : Nat} (hk : 0 < k) (hmod : 0 < n % k) :
    (n + k - 1) / k = n / k + 1 := by
  have h : n / k * k + n % k = n := by
    rw [Nat.mul_comm]
    exact Nat.div_add_mod n k
  have hr : n % k < k := Nat.mod_lt n hk
  refine Nat.div_eq_of_lt_le ?_ ?_
  · rw [Nat.add_mul, Nat.one_mul]
    set p := n / k * k with hp
    omega
  · rw [Nat.add_mul, Nat.add_mul, Nat.one_mul]
    set p := n / k * k with hp
    omega

/-- Each member of the (duplicate-free) sorted list occurs either
`⌊n / k⌋` or `⌈n / k⌉ = (n + k - 1) / k` times in `n` steps of the
round-robin sequence. -/
theorem rrSeq_count {sorted : List String} (hnd : sorted.Nodup) {a : String}
    (ha : a ∈ sorted) (i0 n : Nat) (hk : 0 < sorted.length) :
    List.count a ((List.range n).map
        (fun t => sorted.getD ((i0 + t) % sorted.length) "")) =
        n / sorted.length ∨
      List.count a ((List.range n).map
        (fun t => sorted.getD ((i0 + t) % sorted.length) "")) =
        (n + sorted.length - 1) / sorted.length := by
  have hn : n % sorted.length + (n / sorted.length) * sorted.length = n := by
    rw [Nat.mul_comm]
    exact Nat.mod_add_div n sorted.length
  have hcount := rrSeq_count_cycles hnd ha i0 hk (n % sorted.length)
    (n / sorted.length)
  rw [hn] at hcount
  have hle : n % sorted.length ≤ sorted.length := le_of_lt (Nat.mod_lt n hk)
  have hpre := rrSeq_count_prefix_le hnd ha i0 (n % sorted.length) hle hk
  rcases Nat.le_one_iff_eq_zero_or_eq_one.mp hpre with h0 | h1
  · left
    rw [hcount, h0]
    omega
  · right
    have hmod : n % sorted.length ≠ 0 := by
      intro hz
      rw [hz] at h1
      simp at h1
    rw [hcount, h1, ceil_div_of_mod_pos hk (Nat.pos_of_ne_zero hmod)]
    omega

/-- With at least two eligible agents, consecutive steps of the
round-robin sequence select different agents. -/
theorem rrSeq_consec_ne {sorted : List String} (hnd : sorted.Nodup) (i0 : Nat)
    (hk2 : 2 ≤ sorted.length) {t n : Nat} (ht : t + 1 < n) :
    ((List.range n).map
      (fun t2 => sorted.getD ((i0 + t2) % sorted.length) "")).getD t "" ≠
    ((List.range n).map
      (fun t2 => sorted.getD ((i0 + t2) % sorted.length) "")).getD (t + 1) "" := by
  have hk : 0 < sorted.length := by omega
  have hlt1 : t < ((List.range n).map
      (fun t2 => sorted.getD ((i0 + t2) % sorted.length) "")).length := by
    simp
    omega
  have hlt2 : t + 1 < ((List.range n).map
      (fun t2 => sorted.getD ((i0 + t2) % sorted.length) "")).length := by
    simp
    omega
  rw [List.getD_eq_getElem _ _ hlt1, List.getD_eq_getElem _ _ hlt2,
    List.getElem_map, List.getElem_map, List.getElem_range, List.getElem_range,
    List.getD_eq_getElem _ _ (Nat.mod_lt _ hk),
    List.getD_eq_getElem _ _ (Nat.mod_lt _ hk)]
  intro heq
  have hidx : (i0 + t) % sorted.length = (i0 + (t + 1)) % sorted.length :=
    (hnd.getElem_inj_iff).mp heq
  have hmodeq : Nat.ModEq sorted.length (i0 + t) (i0 + t + 1) := hidx
  have hdvd : sorted.length ∣ (i0 + t + 1) - (i0 + t) :=
    (Nat.modEq_iff_dvd' (Nat.le_succ _)).mp hmodeq
  rw [show (i0 + t + 1) - (i0 + t) = 1 from by omega] at hdvd
  have := Nat.le_of_dvd Nat.one_pos hdvd
  omega

/-- The iterated selector follows the rotation formula: with a fixed
eligible list, the `t`-th selection is the element at position
`(i0 + t) mod k` of the sorted eligible list, where `i0` is the position
the first selection takes given the initial pointer. -/
theorem iterateRR_formula (callCenterId queueId : String) (now : JsDate)
    (n : Nat) :
    ∀ (st : Store),
      ¬callCenterId.data.isEmpty = true → ¬queueId.data.isEmpty = true →
      eligibleAgents callCenterId ((alGet queueId st.loggedIn).getD []) now st ≠
        [] →
      (sortStrings (eligibleAgents callCenterId
        ((alGet queueId st.loggedIn).getD []) now st)).Nodup →
      iterateRR callCenterId queueId now n st =
        (List.range n).map (fun t =>
          (sortStrings (eligibleAgents callCenterId
            ((alGet queueId st.loggedIn).getD []) now st)).getD
          ((nextRRIndex (sortStrings (eligibleAgents callCenterId
              ((alGet queueId st.loggedIn).getD []) now st))
            (alGet queueId st.lastAgentRR) + t) %
           (sortStrings (eligibleAgents callCenterId
             ((alGet queueId st.loggedIn).getD []) now st)).length) "") := by
  induction n with
  | zero =>
    intro st hcc hq hne hnd
    simp [iterateRR]
  | succ n ih =>
    intro st hcc hq hne hnd
    have hSne : sortStrings (eligibleAgents callCenterId
        ((alGet queueId st.loggedIn).getD []) now st) ≠ [] :=
      sortStrings_ne_nil hne
    have hk : 0 < (sortStrings (eligibleAgents callCenterId
        ((alGet queueId st.loggedIn).getD []) now st)).length :=
      List.length_pos.mpr hSne
    have hi0 : nextRRIndex (sortStrings (eligibleAgents callCenterId
        ((alGet queueId st.loggedIn).getD []) now st))
        (alGet queueId st.lastAgentRR) <
        (sortStrings (eligibleAgents callCenterId
          ((alGet queueId st.loggedIn).getD []) now st)).length :=
      nextRRIndex_lt _ hk
    have hnonempty : ∀ x ∈ sortStrings (eligibleAgents callCenterId
        ((alGet queueId st.loggedIn).getD []) now st), ¬x.data.isEmpty = true :=
      fun x hx => (eligibleAgents_mem (mem_sortStrings.mp hx)).2.1
    have hFA := findAgent_of_eligible_ne_nil hcc hq hne
    have hstep : iterateRR callCenterId queueId now (n + 1) st =
        rrSelect (sortStrings (eligibleAgents callCenterId
            ((alGet queueId st.loggedIn).getD []) now st))
          (alGet queueId st.lastAgentRR) ::
        iterateRR callCenterId queueId now n
          { st with lastAgentRR :=
            (alSet queueId
              (rrSelect
                (sortStrings (eligibleAgents callCenterId
                  ((alGet queueId st.loggedIn).getD []) now st))
                (alGet queueId st.lastAgentRR))
              st.lastAgentRR) } := by
      show (match findAgentForCall_RoundRobin callCenterId queueId now st with
        | (.ok (some a), st2) => a :: iterateRR callCenterId queueId now n st2
        | _ => []) = _
      rw [hFA]
    rw [hstep]
    have hIH := ih { st with lastAgentRR :=
        (alSet queueId
          (rrSelect
            (sortStrings (eligibleAgents callCenterId
              ((alGet queueId st.loggedIn).getD []) now st))
            (alGet queueId st.lastAgentRR))
          st.lastAgentRR) } hcc hq hne hnd
    rw [hIH]
    rw [eligibleAgents_update_rr callCenterId queueId now st
      (alSet queueId
        (rrSelect
          (sortStrings (eligibleAgents callCenterId
            ((alGet queueId st.loggedIn).getD []) now st))
          (alGet queueId st.lastAgentRR))
        st.lastAgentRR)]
    have hptr : alGet queueId ({ st with lastAgentRR :=
        (alSet queueId
          (rrSelect
            (sortStrings (eligibleAgents callCenterId
              ((alGet queueId st.loggedIn).getD []) now st))
            (alGet queueId st.lastAgentRR))
          st.lastAgentRR) }).lastAgentRR =
        some (rrSelect
          (sortStrings (eligibleAgents callCenterId
            ((alGet queueId st.loggedIn).getD []) now st))
          (alGet queueId st.lastAgentRR)) :=
      alGet_alSet_self _ _ _
    rw [hptr]
    rw [nextRRIndex_of_selected hnd hSne _ hnonempty]
    rw [List.range_succ_eq_map, List.map_cons, List.map_map]
    congr 1
    · rw [Nat.add_zero, Nat.mod_eq_of_lt hi0]
      exact rrSelect_eq_getD _ _
    · apply List.map_congr_left
      intro t ht
      simp only [Function.comp]
      congr 1
      rw [Nat.mod_add_mod]
      congr 1
      omega

/-- C4: over `n` back-to-back selections with a fixed eligible list of
size `k = ` (sorted eligible list length), every selection succeeds
(`n` selections are produced), each eligible agent is selected either
`⌊n / k⌋` or `⌈n / k⌉ = (n + k - 1) / k` times, and when `k ≥ 2` no agent
is selected twice in a row.  The logged-in set is duplicate-free, as a
Redis set is. -/
theorem c4_round_robin_fairness
    (callCenterId queueId : String) (now : JsDate) (st : Store) (n : Nat)
    (hcc : ¬callCenterId.data.isEmpty = true) (hq : ¬queueId.data.isEmpty = true)
    (hnodupL : ((alGet queueId st.loggedIn).getD []).Nodup)
    (hne : eligibleAgents callCenterId ((alGet queueId st.loggedIn).getD []) now
      st ≠ []) :
    (iterateRR callCenterId queueId now n st).length = n ∧
    (∀ a ∈ sortStrings (eligibleAgents callCenterId
        ((alGet queueId st.loggedIn).getD []) now st),
      List.count a (iterateRR callCenterId queueId now n st) =
          n / (sortStrings (eligibleAgents callCenterId
            ((alGet queueId st.loggedIn).getD []) now st)).length ∨
      List.count a (iterateRR callCenterId queueId now n st) =
          (n + (sortStrings (eligibleAgents callCenterId
            ((alGet queueId st.loggedIn).getD []) now st)).length - 1) /
          (sortStrings (eligibleAgents callCenterId
            ((alGet queueId st.loggedIn).getD []) now st)).length) ∧
    (2 ≤ (sortStrings (eligibleAgents callCenterId
        ((alGet queueId st.loggedIn).getD []) now st)).length →
      ∀ t, t + 1 < n →
        (iterateRR callCenterId queueId now n st).getD t "" ≠
        (iterateRR callCenterId queueId now n st).getD (t + 1) "") := by
  have hndS : (sortStrings (eligibleAgents callCenterId
      ((alGet queueId st.loggedIn).getD []) now st)).Nodup :=
    sortStrings_nodup (eligibleAgents_nodup hnodupL)
  have hSne : sortStrings (eligibleAgents callCenterId
      ((alGet queueId st.loggedIn).getD []) now st) ≠ [] :=
    sortStrings_ne_nil hne
  have hk : 0 < (sortStrings (eligibleAgents callCenterId
      ((alGet queueId st.loggedIn).getD []) now st)).length :=
    List.length_pos.mpr hSne
  rw [iterateRR_formula callCenterId queueId now n st hcc hq hne hndS]
  refine ⟨by simp, ?_, ?_⟩
  · intro a ha
    exact rrSeq_count hndS ha _ n hk
  · intro hk2 t ht
    exact rrSeq_consec_ne hndS _ hk2 ht

/-- Witness for C4 at a concrete input: three always-eligible agents and
four selections.  The hypotheses are evaluated on the concrete store. -/
theorem c4_witness :
    (iterateRR "cc1" "Q1" monTen 4 threeAgentStore).length = 4 ∧
    (∀ a ∈ sortStrings (eligibleAgents "cc1"
        ((alGet "Q1" threeAgentStore.loggedIn).getD []) monTen threeAgentStore),
      List.count a (iterateRR "cc1" "Q1" monTen 4 threeAgentStore) =
          4 / (sortStrings (eligibleAgents "cc1"
            ((alGet "Q1" threeAgentStore.loggedIn).getD []) monTen
            threeAgentStore)).length ∨
      List.count a (iterateRR "cc1" "Q1" monTen 4 threeAgentStore) =
          (4 + (sortStrings (eligibleAgents "cc1"
            ((alGet "Q1" threeAgentStore.loggedIn).getD []) monTen
            threeAgentStore)).length - 1) /
          (sortStrings (eligibleAgents "cc1"
            ((alGet "Q1" threeAgentStore.loggedIn).getD []) monTen
            threeAgentStore)).length) ∧
    (2 ≤ (sortStrings (eligibleAgents "cc1"
        ((alGet "Q1" threeAgentStore.loggedIn).getD []) monTen
        threeAgentStore)).length →
      ∀ t, t + 1 < 4 →
        (iterateRR "cc1" "Q1" monTen 4 threeAgentStore).getD t "" ≠
        (iterateRR "cc1" "Q1" monTen 4 threeAgentStore).getD (t + 1) "") :=
  c4_round_robin_fairness "cc1" "Q1" monTen threeAgentStore 4
    (by decide) (by decide) (by decide) (by decide)

end AstQueue
